import Mathlib

/-!
# Playback session of `tommjj/music_player`

The part of `internal/player/player.go` that moves the playback position.  The
decoded stream belongs to the audio library: the player only reads its
`Position()` and `Len()` and calls its `Seek`.  `SampleRate.N`, which turns a
duration into a number of samples, is library code as well, so the number of
samples is an input here, and so is the answer of `Seek`.  The speaker lock is
not modelled.  Sample counts are far below `2 ^ 63`, so Go's `int` is `Int`.
-/

namespace player

/-- Errors `ToPositionByOffset` returns: `os.ErrInvalid`, or whatever
`streamer.Seek` returned. -/
inductive Err where
  | ErrInvalid
  | seekError (msg : String)
deriving DecidableEq, Repr

/-- The active `beep.StreamSeekCloser` as the player reads it: `Position()` and
`Len()`, both counted in samples. -/
structure Streamer where
  position : Int
  len : Nat
deriving DecidableEq, Repr

/-- The field of `Player` that `ToPositionByOffset` reads; `none` is the nil
streamer of a player with no file loaded. -/
structure Player where
  streamer : Option Streamer
deriving DecidableEq, Repr

/-- Method `ToPositionByOffset`.  `samples` is `p.sampleRate.N(offset)` and
`seekResp` is what `streamer.Seek` returns (`none` for `nil`).  The first
component of the result is the position handed to `Seek`, `none` when `Seek` is
not called; the second is the returned error. -/
def ToPositionByOffset (samples : Int) (seekResp : Option String) (p : Player) :
    Option Int × Except Err Unit :=
  match p.streamer with
  | none => (none, .error .ErrInvalid)
  | some s =>
    let newPos := s.position + samples
    let newPos :=
      if newPos < 0 then 0
      else if newPos ≥ (s.len : Int) then (s.len : Int) - 1
      else newPos
    match seekResp with
    | some msg => (some newPos, .error (.seekError msg))
    | none => (some newPos, .ok ())

/-- A player whose stream has `len` samples and stands at `position`. -/
def playing (position : Int) (len : Nat) : Player :=
  { streamer := some { position := position, len := len } }

end player

/-!
# Playlist manager of `tommjj/music_player`

A shallow embedding of `internal/play_manager/play_manager.go`.

Modelling conventions

* Go `int` is `Int`; slice positions handed to `[]` are `Nat` and every
  indexing goes through `Except`, so an index out of range is visible as
  `Err.runtimePanic` instead of being silently defaulted.  The only arithmetic
  on the cursor is `++` and `--` on values between `-1` and the length of a
  slice, so the 64-bit wrap-around of Go's `int` never comes into play.
* `shuffleList` is a `List Nat`: its entries are only ever written by
  `initShuffleList`, from the indices of a `range` loop.
* `[]*Song` is a `List Song` (songs are values, the pointers are never nil,
  slices do not alias).
* `math/rand` is an input: `draw i` is the value `rand.Intn(i + 1)` returned at
  loop index `i` of `shuffle`.  `rand.Intn(i + 1)` always lies in `[0, i]`; this
  is the predicate `DrawOK`.
* `Player.Play` is an input as well: `resp` is what it returns (`none` for
  `nil`, `some msg` for an error).  The paths it was asked to play are logged in
  `PlayerRef.played`, newest first.
* The three event callbacks (`OnCompleted`, `OnPlay`, `OnListChanged`) are
  observers: they are assumed not to call back into the manager.
-/

namespace Playmanager

/-- The record `Song`. -/
structure Song where
  Title : String
  Artist : String
  Album : String
  Path : String
deriving DecidableEq, Repr

def PlayModeNormal : String := "normal"
def PlayModeRepeat : String := "repeat"
def PlayModeShuffle : String := "shuffle"

/-- Error values of the package, the anonymous `errors.New("invalid play mode")`,
an error handed back by `Player.Play`, and the Go run-time panic (index out of
range, nil dereference), which is not an error value but ends the call. -/
inductive Err where
  | ErrPlaylistEmpty
  | ErrSongNotFound
  | ErrInvalidIndex
  | ErrPlayerNotReady
  | invalidPlayMode
  | playerError (msg : String)
  | runtimePanic
deriving DecidableEq, Repr

deriving instance DecidableEq for Except

/-- What the manager can observe of `*player.Player`: the file names passed to
`Player.Play`, newest first. -/
structure PlayerRef where
  played : List String
deriving DecidableEq, Repr

/-- The struct `PlayManager` without its three callback slots.  `Player = none`
is the nil pointer. -/
structure PlayManager where
  playlist : List Song
  currentIndex : Int
  shuffleList : List Nat
  playMode : String
  AutoPlay : Bool
  Player : Option PlayerRef
deriving DecidableEq, Repr

/-- Constructor `NewPlayManager`; `shuffleList` and `AutoPlay` take Go's zero
values. -/
def NewPlayManager : PlayManager :=
  { playlist := [], currentIndex := 0, shuffleList := [], playMode := PlayModeNormal,
    AutoPlay := false, Player := some ⟨[]⟩ }

/-- Slice indexing `xs[i]`: out of range is a run-time panic. -/
def index {α : Type} (xs : List α) (i : Nat) : Except Err α :=
  match xs[i]? with
  | some x => .ok x
  | none => .error .runtimePanic

/-- The random draws respect the range of `rand.Intn(i + 1)`. -/
def DrawOK (draw : Nat → Nat) : Prop := ∀ i, draw i ≤ i

/-- The parallel assignment `slice[i], slice[j] = slice[j], slice[i]`. -/
def swap (slice : List Nat) (i j : Nat) : List Nat :=
  (slice.set i (slice.getD j 0)).set j (slice.getD i 0)

/-- The loop of `shuffle` from index `i` down to `1`. -/
def shuffleLoop (draw : Nat → Nat) : Nat → List Nat → List Nat
  | 0, slice => slice
  | i + 1, slice => shuffleLoop draw i (swap slice (i + 1) (draw (i + 1)))

/-- Function `shuffle`: Fisher-Yates from `len(slice) - 1` down to `1`. -/
def shuffle (draw : Nat → Nat) (slice : List Nat) : List Nat :=
  shuffleLoop draw (slice.length - 1) slice

/-- Method `initShuffleList`. -/
def initShuffleList (draw : Nat → Nat) (pm : PlayManager) : PlayManager :=
  { pm with shuffleList := shuffle draw (List.range pm.playlist.length) }

/-- Method `SetSongs`. -/
def SetSongs (songs : List Song) (pm : PlayManager) : PlayManager :=
  { pm with playlist := songs }

/-- Method `AddSongs`. -/
def AddSongs (songs : List Song) (pm : PlayManager) : PlayManager :=
  { pm with playlist := pm.playlist ++ songs }

/-- The search loop shared by `RemoveSong` and `PlaySong`: the first position
whose `Path` equals `path`. -/
def indexOfPath (path : String) : List Song → Option Nat
  | [] => none
  | s :: rest => if s.Path = path then some 0 else (indexOfPath path rest).map (· + 1)

/-- Method `RemoveSong`. -/
def RemoveSong (song : Song) (pm : PlayManager) : PlayManager :=
  match indexOfPath song.Path pm.playlist with
  | some i =>
    { pm with
      playlist := pm.playlist.eraseIdx i
      currentIndex := if pm.currentIndex ≥ (i : Int) then pm.currentIndex - 1 else pm.currentIndex }
  | none => pm

/-- Method `RemoveSongByIndex`. -/
def RemoveSongByIndex (idx : Int) (pm : PlayManager) : PlayManager :=
  if idx < 0 ∨ idx ≥ (pm.playlist.length : Int) then pm
  else
    { pm with
      playlist := pm.playlist.eraseIdx idx.toNat
      currentIndex := if pm.currentIndex ≥ idx then pm.currentIndex - 1 else pm.currentIndex }

/-- Method `GetCurrentSong`.  It returns the manager as well, because the shuffle
branch may regenerate `shuffleList`. -/
def GetCurrentSong (draw : Nat → Nat) (pm : PlayManager) : PlayManager × Except Err Song :=
  if pm.currentIndex < 0 ∨ pm.currentIndex ≥ (pm.playlist.length : Int) then
    (pm, .error .ErrInvalidIndex)
  else if pm.playMode = PlayModeShuffle then
    let pm1 := if pm.shuffleList.length ≠ pm.playlist.length then initShuffleList draw pm else pm
    (pm1, (index pm1.shuffleList pm1.currentIndex.toNat).bind (index pm1.playlist))
  else
    (pm, index pm.playlist pm.currentIndex.toNat)

/-- Method `play`: one request to `Player.Play`, answered by `resp`. -/
def play (resp : Option String) (song : Song) (pm : PlayManager) : PlayManager × Except Err Unit :=
  match pm.Player with
  | none => (pm, .error .runtimePanic)
  | some p =>
    let pm1 := { pm with Player := some { played := song.Path :: p.played } }
    match resp with
    | some msg => (pm1, .error (.playerError msg))
    | none => (pm1, .ok ())

/-- Method `PlayCurrent`. -/
def PlayCurrent (draw : Nat → Nat) (resp : Option String) (pm : PlayManager) :
    PlayManager × Except Err Unit :=
  if pm.Player = none then (pm, .error .ErrPlayerNotReady)
  else
    match GetCurrentSong draw pm with
    | (pm1, .error e) => (pm1, .error e)
    | (pm1, .ok currentSong) => play resp currentSong pm1

/-- Method `PlayNext`. -/
def PlayNext (draw : Nat → Nat) (resp : Option String) (pm : PlayManager) :
    PlayManager × Except Err Unit :=
  if pm.playlist.length = 0 then (pm, .error .ErrPlaylistEmpty)
  else
    let pm1 :=
      if pm.playMode = PlayModeNormal ∨ pm.playMode = "" ∨ pm.playMode = PlayModeShuffle then
        let c := pm.currentIndex + 1
        { pm with currentIndex := if c ≥ (pm.playlist.length : Int) then 0 else c }
      else pm
    PlayCurrent draw resp pm1

/-- Method `PlayPrevious`. -/
def PlayPrevious (draw : Nat → Nat) (resp : Option String) (pm : PlayManager) :
    PlayManager × Except Err Unit :=
  if pm.playlist.length = 0 then (pm, .error .ErrPlaylistEmpty)
  else
    let pm1 :=
      if pm.playMode = PlayModeNormal ∨ pm.playMode = "" ∨ pm.playMode = PlayModeShuffle then
        let c := pm.currentIndex - 1
        { pm with currentIndex := if c < 0 then (pm.playlist.length : Int) - 1 else c }
      else pm
    PlayCurrent draw resp pm1

/-- Method `PlaySong`. -/
def PlaySong (resp : Option String) (song : Song) (pm : PlayManager) :
    PlayManager × Except Err Unit :=
  if pm.Player = none then (pm, .error .ErrPlayerNotReady)
  else
    let songPlaylistIndex : Int :=
      match indexOfPath song.Path pm.playlist with
      | some i => (i : Int)
      | none => -1
    let pm1 := if songPlaylistIndex > 0 then { pm with currentIndex := songPlaylistIndex } else pm
    play resp song pm1

/-- Method `PlaySongByIndex`. -/
def PlaySongByIndex (draw : Nat → Nat) (resp : Option String) (idx : Int) (pm : PlayManager) :
    PlayManager × Except Err Unit :=
  if idx < 0 ∨ idx ≥ (pm.playlist.length : Int) then (pm, .error .ErrInvalidIndex)
  else PlayCurrent draw resp { pm with currentIndex := idx }

/-- Method `PlayMode`. -/
def PlayMode (pm : PlayManager) : String := pm.playMode

/-- Method `SetPlayMode`. -/
def SetPlayMode (draw : Nat → Nat) (mode : String) (pm : PlayManager) :
    PlayManager × Except Err Unit :=
  if mode = pm.playMode then (pm, .ok ())
  else if mode = PlayModeNormal ∨ mode = "" then
    ({ pm with currentIndex := 0, playMode := mode }, .ok ())
  else if mode = PlayModeRepeat then
    ({ pm with playMode := mode }, .ok ())
  else if mode = PlayModeShuffle then
    ({ initShuffleList draw { pm with playMode := mode } with currentIndex := 0 }, .ok ())
  else (pm, .error .invalidPlayMode)

/-- Method `ResetShuffleList`. -/
def ResetShuffleList (draw : Nat → Nat) (pm : PlayManager) : PlayManager :=
  if pm.playMode ≠ PlayModeShuffle then pm
  else { initShuffleList draw pm with currentIndex := 0 }

/-- Method `PlayList`.  The copy loop reads `playlist[idx]` for every entry of
`shuffleList`. -/
def PlayList (draw : Nat → Nat) (pm : PlayManager) : PlayManager × Except Err (List Song) :=
  if pm.playMode = PlayModeShuffle then
    let pm1 := if pm.shuffleList.length ≠ pm.playlist.length then initShuffleList draw pm else pm
    (pm1, pm1.shuffleList.mapM (index pm1.playlist))
  else (pm, .ok pm.playlist)

/-- One call of a method of `PlayManager`, with the environment's answers it
consumes (`draw` for `math/rand`, `resp` for `Player.Play`). -/
inductive Op where
  | SetSongs (songs : List Song)
  | AddSongs (songs : List Song)
  | RemoveSong (song : Song)
  | RemoveSongByIndex (idx : Int)
  | GetCurrentSong (draw : Nat → Nat)
  | PlayCurrent (draw : Nat → Nat) (resp : Option String)
  | PlayNext (draw : Nat → Nat) (resp : Option String)
  | PlayPrevious (draw : Nat → Nat) (resp : Option String)
  | PlaySong (resp : Option String) (song : Song)
  | PlaySongByIndex (draw : Nat → Nat) (resp : Option String) (idx : Int)
  | SetPlayMode (draw : Nat → Nat) (mode : String)
  | ResetShuffleList (draw : Nat → Nat)
  | PlayList (draw : Nat → Nat)

/-- The state after one call. -/
def step (pm : PlayManager) : Op → PlayManager
  | .SetSongs songs => SetSongs songs pm
  | .AddSongs songs => AddSongs songs pm
  | .RemoveSong song => RemoveSong song pm
  | .RemoveSongByIndex idx => RemoveSongByIndex idx pm
  | .GetCurrentSong draw => (GetCurrentSong draw pm).1
  | .PlayCurrent draw resp => (PlayCurrent draw resp pm).1
  | .PlayNext draw resp => (PlayNext draw resp pm).1
  | .PlayPrevious draw resp => (PlayPrevious draw resp pm).1
  | .PlaySong resp song => (PlaySong resp song pm).1
  | .PlaySongByIndex draw resp idx => (PlaySongByIndex draw resp idx pm).1
  | .SetPlayMode draw mode => (SetPlayMode draw mode pm).1
  | .ResetShuffleList draw => ResetShuffleList draw pm
  | .PlayList draw => (PlayList draw pm).1

/-- The draws a call consumes respect the range of `rand.Intn`. -/
def Op.DrawsOK : Op → Prop
  | .GetCurrentSong draw => DrawOK draw
  | .PlayCurrent draw _ => DrawOK draw
  | .PlayNext draw _ => DrawOK draw
  | .PlayPrevious draw _ => DrawOK draw
  | .PlaySongByIndex draw _ _ => DrawOK draw
  | .SetPlayMode draw _ => DrawOK draw
  | .ResetShuffleList draw => DrawOK draw
  | .PlayList draw => DrawOK draw
  | _ => True

/-- The call is `SetSongs`. -/
def Op.isSetSongs : Op → Bool
  | .SetSongs _ => true
  | _ => false

/-- The call is `RemoveSong` or `RemoveSongByIndex`. -/
def Op.isRemove : Op → Bool
  | .RemoveSong _ => true
  | .RemoveSongByIndex _ => true
  | _ => false

/-- The state after a sequence of calls, first call first. -/
def run (pm : PlayManager) (ops : List Op) : PlayManager := ops.foldl step pm

/-- States the manager can be in: `NewPlayManager()` followed by any calls. -/
def Reachable (pm : PlayManager) : Prop :=
  ∃ ops : List Op, (∀ op ∈ ops, op.DrawsOK) ∧ run NewPlayManager ops = pm

/-- Calls number `i`, `i + 1`, ..., `i + k - 1` of `PlayNext` in a row; call
number `j` consumes `draws j` and `resps j`. -/
def PlayNextTimes (draws : Nat → Nat → Nat) (resps : Nat → Option String) :
    Nat → Nat → PlayManager → PlayManager
  | _, 0, pm => pm
  | i, k + 1, pm => PlayNextTimes draws resps (i + 1) k (PlayNext (draws i) (resps i) pm).1

/-- Calls of `PlayNext` as in `PlayNextTimes`, each followed by a call of
`GetCurrentSong` (which consumes `obs j`); the results of the latter are
collected in call order. -/
def PlayNextReport (draws obs : Nat → Nat → Nat) (resps : Nat → Option String) :
    Nat → Nat → PlayManager → List (Except Err Song) × PlayManager
  | _, 0, pm => ([], pm)
  | i, k + 1, pm =>
    let pm1 := (PlayNext (draws i) (resps i) pm).1
    let r := GetCurrentSong (obs i) pm1
    let rest := PlayNextReport draws obs resps (i + 1) k r.1
    (r.2 :: rest.1, rest.2)

/-- The shuffle order is a rearrangement of `0, ..., len(shuffleList) - 1`. -/
def ShuffleOK (pm : PlayManager) : Prop :=
  pm.shuffleList.Perm (List.range pm.shuffleList.length)

/-- The play mode is one of the values the `switch` statements know. -/
def ModeOK (pm : PlayManager) : Prop :=
  pm.playMode = PlayModeNormal ∨ pm.playMode = "" ∨ pm.playMode = PlayModeRepeat ∨
    pm.playMode = PlayModeShuffle

/-! ### Sample data for the worked examples -/

def songA : Song := { Title := "A", Artist := "", Album := "", Path := "a.mp3" }
def songB : Song := { Title := "B", Artist := "", Album := "", Path := "b.mp3" }
def songC : Song := { Title := "C", Artist := "", Album := "", Path := "c.mp3" }

/-- The draws of a shuffle that swaps every position with itself. -/
def drawSelf : Nat → Nat := fun i => i

/-- The draws of a shuffle that swaps every position with position `0`. -/
def drawZero : Nat → Nat := fun _ => 0

/-- Two songs are loaded and the one under the cursor is removed. -/
def removeAtCursorOps : List Op :=
  [.SetSongs [songA, songB], .RemoveSongByIndex 0]

/-- Three songs are loaded, the last one is played, then a one-song list is
loaded. -/
def shrinkOps : List Op :=
  [.SetSongs [songA, songB, songC], .PlaySongByIndex drawSelf none 2, .SetSongs [songA]]

/-- Songs are added, one is played by index, the mode is changed twice. -/
def growOps : List Op :=
  [.AddSongs [songA, songB, songC], .PlaySongByIndex drawSelf none 2,
    .SetPlayMode drawZero "shuffle", .PlayNext drawZero none]

/-- Three songs are added, shuffle mode is entered, and the middle song is
removed, which leaves a shuffle order of stale length three. -/
def staleShuffleOps : List Op :=
  [.AddSongs [songA, songB, songC], .SetPlayMode drawZero "shuffle", .RemoveSongByIndex 1]

/-- Specification side of `RemoveSong`: `i` is the smallest position of the
playlist whose song has the path `path`. -/
def IsFirstMatch (path : String) (l : List Song) (i : Nat) : Prop :=
  (∃ s, l[i]? = some s ∧ s.Path = path) ∧ ∀ j, j < i → ∀ t, l[j]? = some t → t.Path ≠ path

/-- A second song stored under the path of `songB`. -/
def songB2 : Song := { Title := "B again", Artist := "", Album := "", Path := "b.mp3" }

/-- A manager holding `[A, B, C, B2]` with the cursor on `C`. -/
def fourSongs : PlayManager :=
  { NewPlayManager with playlist := [songA, songB, songC, songB2], currentIndex := 2 }

/-! ## Theorems -/

/-! ### The shuffle is a permutation -/

theorem index_eq_ok {α : Type} (xs : List α) (i : Nat) (h : i < xs.length) :
    index xs i = .ok xs[i] := by
  simp [index, List.getElem?_eq_getElem h]

theorem index_eq_panic {α : Type} (xs : List α) (i : Nat) (h : xs.length ≤ i) :
    index xs i = .error .runtimePanic := by
  simp [index, List.getElem?_eq_none h]

theorem getElem_set_other (l : List Nat) (i j : Nat) (hj : j < l.length)
    (hs : j < (l.set i l[j]).length) : (l.set i l[j])[j] = l[j] := by
  by_cases h : i = j
  · subst h; simp
  · simp [List.getElem_set_ne h]

theorem indicator_le_count (l : List Nat) (i : Nat) (hi : i < l.length) (b : Nat) :
    (if l[i] == b then 1 else 0) ≤ l.count b := by
  have hmem : l[i] ∈ l := List.getElem_mem hi
  by_cases h : l[i] = b
  · subst h
    have := List.count_pos_iff.mpr hmem
    simp only [beq_self_eq_true, if_true]
    omega
  · simp [h]

theorem swap_perm (l : List Nat) (i j : Nat) (hi : i < l.length) (hj : j < l.length) :
    (swap l i j).Perm l := by
  unfold swap
  rw [List.getD_eq_getElem l 0 hi, List.getD_eq_getElem l 0 hj, List.perm_iff_count]
  intro b
  have hj' : j < (l.set i l[j]).length := by simpa using hj
  rw [List.count_set _ _ _ _ hj', List.count_set _ _ _ _ hi, getElem_set_other l i j hj hj']
  have h1 := indicator_le_count l i hi b
  have h2 := indicator_le_count l j hj b
  omega

theorem swap_length (l : List Nat) (i j : Nat) : (swap l i j).length = l.length := by
  simp [swap]

theorem shuffleLoop_perm (draw : Nat → Nat) (hd : DrawOK draw) :
    ∀ (i : Nat) (slice : List Nat), i < slice.length ∨ i = 0 →
      (shuffleLoop draw i slice).Perm slice
  | 0, slice, _ => by simp [shuffleLoop]
  | i + 1, slice, h => by
    have hi : i + 1 < slice.length := by omega
    have hj : draw (i + 1) < slice.length := lt_of_le_of_lt (hd (i + 1)) hi
    have ih := shuffleLoop_perm draw hd i (swap slice (i + 1) (draw (i + 1)))
      (by rw [swap_length]; omega)
    simpa [shuffleLoop] using ih.trans (swap_perm slice (i + 1) (draw (i + 1)) hi hj)

theorem shuffle_perm (draw : Nat → Nat) (hd : DrawOK draw) (slice : List Nat) :
    (shuffle draw slice).Perm slice :=
  shuffleLoop_perm draw hd (slice.length - 1) slice (by omega)

theorem initShuffleList_perm (draw : Nat → Nat) (hd : DrawOK draw) (pm : PlayManager) :
    (initShuffleList draw pm).shuffleList.Perm (List.range pm.playlist.length) :=
  shuffle_perm draw hd _

theorem initShuffleList_length (draw : Nat → Nat) (hd : DrawOK draw) (pm : PlayManager) :
    (initShuffleList draw pm).shuffleList.length = pm.playlist.length := by
  simpa using (initShuffleList_perm draw hd pm).length_eq

theorem initShuffleList_shuffleOK (draw : Nat → Nat) (hd : DrawOK draw) (pm : PlayManager) :
    ShuffleOK (initShuffleList draw pm) := by
  unfold ShuffleOK
  rw [initShuffleList_length draw hd pm]
  exact initShuffleList_perm draw hd pm

/-! ### What each method leaves alone -/

theorem GetCurrentSong_frame (draw : Nat → Nat) (pm : PlayManager) :
    (GetCurrentSong draw pm).1.playlist = pm.playlist ∧
    (GetCurrentSong draw pm).1.currentIndex = pm.currentIndex ∧
    (GetCurrentSong draw pm).1.playMode = pm.playMode ∧
    (GetCurrentSong draw pm).1.Player = pm.Player ∧
    (GetCurrentSong draw pm).1.AutoPlay = pm.AutoPlay := by
  unfold GetCurrentSong
  split
  · simp
  · split
    · dsimp only
      split <;> simp [initShuffleList]
    · simp

theorem GetCurrentSong_shuffleList (draw : Nat → Nat) (pm : PlayManager) :
    (GetCurrentSong draw pm).1.shuffleList = pm.shuffleList ∨
    ((GetCurrentSong draw pm).1.shuffleList = (initShuffleList draw pm).shuffleList ∧
      pm.playMode = PlayModeShuffle ∧ pm.shuffleList.length ≠ pm.playlist.length) := by
  unfold GetCurrentSong
  split
  · simp
  · split
    · rename_i hm
      dsimp only
      split
      · rename_i hl
        exact Or.inr ⟨rfl, hm, hl⟩
      · exact Or.inl rfl
    · simp

theorem play_frame (resp : Option String) (song : Song) (pm : PlayManager) :
    (play resp song pm).1.playlist = pm.playlist ∧
    (play resp song pm).1.currentIndex = pm.currentIndex ∧
    (play resp song pm).1.playMode = pm.playMode ∧
    (play resp song pm).1.shuffleList = pm.shuffleList ∧
    (play resp song pm).1.AutoPlay = pm.AutoPlay := by
  unfold play
  cases pm.Player with
  | none => simp
  | some p => cases resp <;> simp

theorem PlayCurrent_fst (draw : Nat → Nat) (resp : Option String) (pm : PlayManager) :
    (PlayCurrent draw resp pm).1 = pm ∨
    (PlayCurrent draw resp pm).1 = (GetCurrentSong draw pm).1 ∨
    ∃ song, (PlayCurrent draw resp pm).1 = (play resp song (GetCurrentSong draw pm).1).1 := by
  unfold PlayCurrent
  split
  · exact Or.inl rfl
  · split
    · rename_i pm1 e he
      right; left
      simp [he]
    · rename_i pm1 song he
      right; right
      exact ⟨song, by simp [he]⟩

theorem PlayCurrent_frame (draw : Nat → Nat) (resp : Option String) (pm : PlayManager) :
    (PlayCurrent draw resp pm).1.playlist = pm.playlist ∧
    (PlayCurrent draw resp pm).1.currentIndex = pm.currentIndex ∧
    (PlayCurrent draw resp pm).1.playMode = pm.playMode ∧
    (PlayCurrent draw resp pm).1.AutoPlay = pm.AutoPlay := by
  have hg := GetCurrentSong_frame draw pm
  rcases PlayCurrent_fst draw resp pm with h | h | ⟨song, h⟩
  · simp [h]
  · rw [h]; exact ⟨hg.1, hg.2.1, hg.2.2.1, hg.2.2.2.2⟩
  · have hp := play_frame resp song (GetCurrentSong draw pm).1
    rw [h]
    exact ⟨hp.1.trans hg.1, hp.2.1.trans hg.2.1, hp.2.2.1.trans hg.2.2.1,
      hp.2.2.2.2.trans hg.2.2.2.2⟩

theorem PlayCurrent_shuffleList (draw : Nat → Nat) (resp : Option String) (pm : PlayManager) :
    (PlayCurrent draw resp pm).1.shuffleList = pm.shuffleList ∨
    ((PlayCurrent draw resp pm).1.shuffleList = (initShuffleList draw pm).shuffleList ∧
      pm.playMode = PlayModeShuffle ∧ pm.shuffleList.length ≠ pm.playlist.length) := by
  have hg := GetCurrentSong_shuffleList draw pm
  rcases PlayCurrent_fst draw resp pm with h | h | ⟨song, h⟩
  · simp [h]
  · rw [h]; exact hg
  · have hp := play_frame resp song (GetCurrentSong draw pm).1
    rw [h, hp.2.2.2.1]
    exact hg

/-! ### The cursor after `PlayNext` and `PlayPrevious` -/

theorem PlayNext_empty (draw : Nat → Nat) (resp : Option String) (pm : PlayManager)
    (h : pm.playlist = []) : PlayNext draw resp pm = (pm, .error .ErrPlaylistEmpty) := by
  simp [PlayNext, h]

theorem PlayPrevious_empty (draw : Nat → Nat) (resp : Option String) (pm : PlayManager)
    (h : pm.playlist = []) : PlayPrevious draw resp pm = (pm, .error .ErrPlaylistEmpty) := by
  simp [PlayPrevious, h]

theorem PlayNext_playlist (draw : Nat → Nat) (resp : Option String) (pm : PlayManager) :
    (PlayNext draw resp pm).1.playlist = pm.playlist ∧
    (PlayNext draw resp pm).1.playMode = pm.playMode := by
  unfold PlayNext
  split
  · simp
  · dsimp only
    split
    · exact ⟨(PlayCurrent_frame draw resp _).1, (PlayCurrent_frame draw resp _).2.2.1⟩
    · exact ⟨(PlayCurrent_frame draw resp _).1, (PlayCurrent_frame draw resp _).2.2.1⟩

theorem PlayPrevious_playlist (draw : Nat → Nat) (resp : Option String) (pm : PlayManager) :
    (PlayPrevious draw resp pm).1.playlist = pm.playlist ∧
    (PlayPrevious draw resp pm).1.playMode = pm.playMode := by
  unfold PlayPrevious
  split
  · simp
  · dsimp only
    split
    · exact ⟨(PlayCurrent_frame draw resp _).1, (PlayCurrent_frame draw resp _).2.2.1⟩
    · exact ⟨(PlayCurrent_frame draw resp _).1, (PlayCurrent_frame draw resp _).2.2.1⟩

theorem PlayNext_cursor (draw : Nat → Nat) (resp : Option String) (pm : PlayManager) :
    (PlayNext draw resp pm).1.currentIndex =
      if pm.playlist.length = 0 then pm.currentIndex
      else if pm.playMode = PlayModeNormal ∨ pm.playMode = "" ∨ pm.playMode = PlayModeShuffle then
        (if pm.currentIndex + 1 ≥ (pm.playlist.length : Int) then 0 else pm.currentIndex + 1)
      else pm.currentIndex := by
  unfold PlayNext
  split
  · rfl
  · dsimp only
    split
    · exact (PlayCurrent_frame draw resp _).2.1
    · exact (PlayCurrent_frame draw resp _).2.1

theorem PlayPrevious_cursor (draw : Nat → Nat) (resp : Option String) (pm : PlayManager) :
    (PlayPrevious draw resp pm).1.currentIndex =
      if pm.playlist.length = 0 then pm.currentIndex
      else if pm.playMode = PlayModeNormal ∨ pm.playMode = "" ∨ pm.playMode = PlayModeShuffle then
        (if pm.currentIndex - 1 < 0 then (pm.playlist.length : Int) - 1 else pm.currentIndex - 1)
      else pm.currentIndex := by
  unfold PlayPrevious
  split
  · rfl
  · dsimp only
    split
    · exact (PlayCurrent_frame draw resp _).2.1
    · exact (PlayCurrent_frame draw resp _).2.1

/-! ### The cursor and the playlist after the other methods -/

theorem indexOfPath_lt (path : String) :
    ∀ (l : List Song) (i : Nat), indexOfPath path l = some i → i < l.length
  | [], i, h => by simp [indexOfPath] at h
  | s :: rest, i, h => by
    unfold indexOfPath at h
    split at h
    · simp at h; subst h; simp
    · cases hr : indexOfPath path rest with
      | none => simp [hr] at h
      | some j =>
        have := indexOfPath_lt path rest j hr
        simp [hr] at h
        subst h
        simpa using this

theorem RemoveSong_effect (song : Song) (pm : PlayManager) :
    RemoveSong song pm = pm ∨
    ∃ i : Nat, i < pm.playlist.length ∧
      (RemoveSong song pm).playlist = pm.playlist.eraseIdx i ∧
      (RemoveSong song pm).currentIndex =
        (if pm.currentIndex ≥ (i : Int) then pm.currentIndex - 1 else pm.currentIndex) ∧
      (RemoveSong song pm).playMode = pm.playMode ∧
      (RemoveSong song pm).shuffleList = pm.shuffleList := by
  unfold RemoveSong
  cases h : indexOfPath song.Path pm.playlist with
  | none => exact Or.inl rfl
  | some i => exact Or.inr ⟨i, indexOfPath_lt _ _ _ h, rfl, rfl, rfl, rfl⟩

theorem RemoveSongByIndex_effect (idx : Int) (pm : PlayManager) :
    RemoveSongByIndex idx pm = pm ∨
    ∃ i : Nat, i < pm.playlist.length ∧
      (RemoveSongByIndex idx pm).playlist = pm.playlist.eraseIdx i ∧
      (RemoveSongByIndex idx pm).currentIndex =
        (if pm.currentIndex ≥ (i : Int) then pm.currentIndex - 1 else pm.currentIndex) ∧
      (RemoveSongByIndex idx pm).playMode = pm.playMode ∧
      (RemoveSongByIndex idx pm).shuffleList = pm.shuffleList := by
  unfold RemoveSongByIndex
  split
  · exact Or.inl rfl
  · rename_i h
    have h0 : 0 ≤ idx := by omega
    have hi : (idx.toNat : Int) = idx := Int.toNat_of_nonneg h0
    refine Or.inr ⟨idx.toNat, by omega, rfl, ?_, rfl, rfl⟩
    simp only [hi]

theorem PlaySong_effect (resp : Option String) (song : Song) (pm : PlayManager) :
    (PlaySong resp song pm).1.playlist = pm.playlist ∧
    (PlaySong resp song pm).1.playMode = pm.playMode ∧
    (PlaySong resp song pm).1.shuffleList = pm.shuffleList ∧
    ((PlaySong resp song pm).1.currentIndex = pm.currentIndex ∨
      (0 < (PlaySong resp song pm).1.currentIndex ∧
        (PlaySong resp song pm).1.currentIndex < (pm.playlist.length : Int))) := by
  unfold PlaySong
  split
  · simp
  · dsimp only
    have hp := fun (q : PlayManager) => play_frame resp song q
    split
    · rename_i hpos
      refine ⟨(hp _).1, (hp _).2.2.1, (hp _).2.2.2.1, Or.inr ?_⟩
      rw [(hp _).2.1]
      cases hi : indexOfPath song.Path pm.playlist with
      | none => simp [hi] at hpos
      | some i =>
        have := indexOfPath_lt _ _ _ hi
        simp only [hi] at hpos ⊢
        omega
    · exact ⟨(hp _).1, (hp _).2.2.1, (hp _).2.2.2.1, Or.inl (hp _).2.1⟩

theorem PlaySongByIndex_effect (draw : Nat → Nat) (resp : Option String) (idx : Int)
    (pm : PlayManager) :
    (PlaySongByIndex draw resp idx pm).1.playlist = pm.playlist ∧
    (PlaySongByIndex draw resp idx pm).1.playMode = pm.playMode ∧
    ((PlaySongByIndex draw resp idx pm).1.currentIndex = pm.currentIndex ∨
      (0 ≤ (PlaySongByIndex draw resp idx pm).1.currentIndex ∧
        (PlaySongByIndex draw resp idx pm).1.currentIndex < (pm.playlist.length : Int))) := by
  unfold PlaySongByIndex
  split
  · simp
  · rename_i h
    have hc := PlayCurrent_frame draw resp { pm with currentIndex := idx }
    refine ⟨hc.1, hc.2.2.1, Or.inr ?_⟩
    rw [hc.2.1]
    dsimp only
    omega

theorem SetPlayMode_effect (draw : Nat → Nat) (mode : String) (pm : PlayManager) :
    (SetPlayMode draw mode pm).1.playlist = pm.playlist ∧
    ((SetPlayMode draw mode pm).1.currentIndex = pm.currentIndex ∨
      (SetPlayMode draw mode pm).1.currentIndex = 0) := by
  unfold SetPlayMode
  split
  · simp
  · split
    · simp
    · split
      · simp
      · split
        · simp [initShuffleList]
        · simp

theorem ResetShuffleList_effect (draw : Nat → Nat) (pm : PlayManager) :
    (ResetShuffleList draw pm).playlist = pm.playlist ∧
    (ResetShuffleList draw pm).playMode = pm.playMode ∧
    ((ResetShuffleList draw pm).currentIndex = pm.currentIndex ∨
      (ResetShuffleList draw pm).currentIndex = 0) := by
  unfold ResetShuffleList
  split
  · simp
  · simp [initShuffleList]

theorem PlayList_frame (draw : Nat → Nat) (pm : PlayManager) :
    (PlayList draw pm).1.playlist = pm.playlist ∧
    (PlayList draw pm).1.currentIndex = pm.currentIndex ∧
    (PlayList draw pm).1.playMode = pm.playMode := by
  unfold PlayList
  split
  · dsimp only
    split <;> simp [initShuffleList]
  · simp

/-! ### Invariants of the reachable states -/

theorem run_invariant (P : PlayManager → Prop) (Q : Op → Prop)
    (hstep : ∀ pm op, P pm → Q op → P (step pm op)) :
    ∀ (ops : List Op) (pm : PlayManager), P pm → (∀ op ∈ ops, Q op) → P (run pm ops)
  | [], pm, h0, _ => by simpa [run] using h0
  | op :: rest, pm, h0, hq => by
    have h1 := hstep pm op h0 (hq op (List.mem_cons_self op rest))
    have := run_invariant P Q hstep rest (step pm op) h1
      (fun o ho => hq o (List.mem_cons_of_mem op ho))
    simpa [run] using this

theorem step_summary (pm : PlayManager) (op : Op) :
    (op.isSetSongs = true ∧ (step pm op).currentIndex = pm.currentIndex) ∨
    (op.isRemove = true ∧ ∃ i : Nat, i < pm.playlist.length ∧
      (step pm op).playlist.length = pm.playlist.length - 1 ∧
      (step pm op).currentIndex =
        (if pm.currentIndex ≥ (i : Int) then pm.currentIndex - 1 else pm.currentIndex)) ∨
    (pm.playlist.length ≤ (step pm op).playlist.length ∧
      (step pm op).currentIndex = pm.currentIndex) ∨
    ((step pm op).playlist.length = pm.playlist.length ∧
      ((step pm op).currentIndex = 0 ∨
        (0 ≤ (step pm op).currentIndex ∧
          (step pm op).currentIndex < (pm.playlist.length : Int)))) ∨
    ((step pm op).playlist.length = pm.playlist.length ∧
      (step pm op).currentIndex = pm.currentIndex + 1 ∧
      (step pm op).currentIndex < (pm.playlist.length : Int)) ∨
    ((step pm op).playlist.length = pm.playlist.length ∧
      (step pm op).currentIndex = pm.currentIndex - 1 ∧ 0 ≤ (step pm op).currentIndex) := by
  cases op with
  | SetSongs songs => exact Or.inl ⟨rfl, rfl⟩
  | AddSongs songs =>
    right; right; left
    simp [step, AddSongs]
  | RemoveSong song =>
    rcases RemoveSong_effect song pm with h | ⟨i, hi, hl, hc, _, _⟩
    · right; right; left
      simp [step, h]
    · right; left
      exact ⟨rfl, i, hi, by simp [step, hl, List.length_eraseIdx_of_lt hi], by simpa [step] using hc⟩
  | RemoveSongByIndex idx =>
    rcases RemoveSongByIndex_effect idx pm with h | ⟨i, hi, hl, hc, _, _⟩
    · right; right; left
      simp [step, h]
    · right; left
      exact ⟨rfl, i, hi, by simp [step, hl, List.length_eraseIdx_of_lt hi], by simpa [step] using hc⟩
  | GetCurrentSong draw =>
    have h := GetCurrentSong_frame draw pm
    right; right; left
    simp [step, h.1, h.2.1]
  | PlayCurrent draw resp =>
    have h := PlayCurrent_frame draw resp pm
    right; right; left
    simp [step, h.1, h.2.1]
  | PlayNext draw resp =>
    have hl := (PlayNext_playlist draw resp pm).1
    have hc := PlayNext_cursor draw resp pm
    have hl := congrArg List.length hl
    simp only [step]
    split at hc
    · right; right; left; exact ⟨le_of_eq hl.symm, hc⟩
    · split at hc
      · split at hc
        · right; right; right; left; exact ⟨hl, Or.inl hc⟩
        · right; right; right; right; left; exact ⟨hl, hc, by omega⟩
      · right; right; left; exact ⟨le_of_eq hl.symm, hc⟩
  | PlayPrevious draw resp =>
    have hl := (PlayPrevious_playlist draw resp pm).1
    have hc := PlayPrevious_cursor draw resp pm
    have hl := congrArg List.length hl
    simp only [step]
    split at hc
    · right; right; left; exact ⟨le_of_eq hl.symm, hc⟩
    · split at hc
      · split at hc
        · right; right; right; left; exact ⟨hl, Or.inr (by omega)⟩
        · right; right; right; right; right; exact ⟨hl, hc, by omega⟩
      · right; right; left; exact ⟨le_of_eq hl.symm, hc⟩
  | PlaySong resp song =>
    have h := PlaySong_effect resp song pm
    have hl := congrArg List.length h.1
    simp only [step]
    rcases h.2.2.2 with hc | hc
    · right; right; left; exact ⟨le_of_eq hl.symm, hc⟩
    · right; right; right; left; exact ⟨hl, Or.inr ⟨by omega, hc.2⟩⟩
  | PlaySongByIndex draw resp idx =>
    have h := PlaySongByIndex_effect draw resp idx pm
    have hl := congrArg List.length h.1
    simp only [step]
    rcases h.2.2 with hc | hc
    · right; right; left; exact ⟨le_of_eq hl.symm, hc⟩
    · right; right; right; left; exact ⟨hl, Or.inr hc⟩
  | SetPlayMode draw mode =>
    have h := SetPlayMode_effect draw mode pm
    have hl := congrArg List.length h.1
    simp only [step]
    rcases h.2 with hc | hc
    · right; right; left; exact ⟨le_of_eq hl.symm, hc⟩
    · right; right; right; left; exact ⟨hl, Or.inl hc⟩
  | ResetShuffleList draw =>
    have h := ResetShuffleList_effect draw pm
    have hl := congrArg List.length h.1
    simp only [step]
    rcases h.2.2 with hc | hc
    · right; right; left; exact ⟨le_of_eq hl.symm, hc⟩
    · right; right; right; left; exact ⟨hl, Or.inl hc⟩
  | PlayList draw =>
    have h := PlayList_frame draw pm
    right; right; left
    simp [step, h.1, h.2.1]

theorem cursor_ge_step (pm : PlayManager) (op : Op) (h : -1 ≤ pm.currentIndex) (_ : True) :
    -1 ≤ (step pm op).currentIndex := by
  rcases step_summary pm op with h1 | ⟨_, i, _, _, hc⟩ | h1 | h1 | h1 | h1
  · omega
  · split at hc <;> omega
  · omega
  · omega
  · omega
  · omega

theorem cursor_le_step (pm : PlayManager) (op : Op)
    (h : -1 ≤ pm.currentIndex ∧
      (pm.currentIndex < (pm.playlist.length : Int) ∨ pm.currentIndex ≤ 0))
    (hop : op.isSetSongs = false) :
    -1 ≤ (step pm op).currentIndex ∧
      ((step pm op).currentIndex < ((step pm op).playlist.length : Int) ∨
        (step pm op).currentIndex ≤ 0) := by
  rcases step_summary pm op with h1 | ⟨_, i, hi, hl, hc⟩ | h1 | h1 | h1 | h1
  · rw [hop] at h1; exact absurd h1.1 (by decide)
  · split at hc <;> omega
  · omega
  · omega
  · omega
  · omega

theorem cursor_in_range_step (pm : PlayManager) (op : Op)
    (h : 0 ≤ pm.currentIndex ∧
      (pm.currentIndex < (pm.playlist.length : Int) ∨ pm.currentIndex = 0))
    (hop : op.isSetSongs = false ∧ op.isRemove = false) :
    0 ≤ (step pm op).currentIndex ∧
      ((step pm op).currentIndex < ((step pm op).playlist.length : Int) ∨
        (step pm op).currentIndex = 0) := by
  rcases step_summary pm op with h1 | ⟨h1, _⟩ | h1 | h1 | h1 | h1
  · rw [hop.1] at h1; exact absurd h1.1 (by decide)
  · rw [hop.2] at h1; exact absurd h1 (by decide)
  · omega
  · omega
  · omega
  · omega

theorem reachable_cursor_ge (pm : PlayManager) (h : Reachable pm) : -1 ≤ pm.currentIndex := by
  obtain ⟨ops, _, rfl⟩ := h
  exact run_invariant (fun pm => -1 ≤ pm.currentIndex) (fun _ => True) cursor_ge_step ops
    NewPlayManager (by decide) (fun _ _ => trivial)

/-! ### `GetCurrentSong` case by case -/

theorem GetCurrentSong_out_of_range (draw : Nat → Nat) (pm : PlayManager)
    (h : pm.currentIndex < 0 ∨ pm.currentIndex ≥ (pm.playlist.length : Int)) :
    GetCurrentSong draw pm = (pm, .error .ErrInvalidIndex) := by
  simp [GetCurrentSong, h]

theorem GetCurrentSong_canonical (draw : Nat → Nat) (pm : PlayManager)
    (hm : pm.playMode ≠ PlayModeShuffle)
    (h0 : 0 ≤ pm.currentIndex) (h1 : pm.currentIndex < (pm.playlist.length : Int)) :
    ∃ hlt : pm.currentIndex.toNat < pm.playlist.length,
      GetCurrentSong draw pm = (pm, .ok pm.playlist[pm.currentIndex.toNat]) := by
  have hlt : pm.currentIndex.toNat < pm.playlist.length := by omega
  refine ⟨hlt, ?_⟩
  have hng : ¬ (pm.currentIndex < 0 ∨ pm.currentIndex ≥ (pm.playlist.length : Int)) := by omega
  simp [GetCurrentSong, hng, hm, index_eq_ok _ _ hlt]

/-! ### Repeated `PlayNext` -/

theorem PlayNext_cursor_mod (draw : Nat → Nat) (resp : Option String) (pm : PlayManager)
    (hm : pm.playMode = PlayModeNormal ∨ pm.playMode = "" ∨ pm.playMode = PlayModeShuffle)
    (h0 : 0 ≤ pm.currentIndex) (h1 : pm.currentIndex < (pm.playlist.length : Int)) :
    (PlayNext draw resp pm).1.currentIndex = (pm.currentIndex + 1) % (pm.playlist.length : Int) := by
  have hn : ¬ pm.playlist.length = 0 := by omega
  rw [PlayNext_cursor, if_neg hn, if_pos hm]
  split
  · have : pm.currentIndex + 1 = (pm.playlist.length : Int) := by omega
    rw [this, Int.emod_self]
  · rw [Int.emod_eq_of_lt (by omega) (by omega)]

theorem PlayNextTimes_cursor (draws : Nat → Nat → Nat) (resps : Nat → Option String) :
    ∀ (k i : Nat) (pm : PlayManager),
      (pm.playMode = PlayModeNormal ∨ pm.playMode = "" ∨ pm.playMode = PlayModeShuffle) →
      0 ≤ pm.currentIndex → pm.currentIndex < (pm.playlist.length : Int) →
      (PlayNextTimes draws resps i k pm).playlist = pm.playlist ∧
      (PlayNextTimes draws resps i k pm).playMode = pm.playMode ∧
      (PlayNextTimes draws resps i k pm).currentIndex =
        (pm.currentIndex + (k : Int)) % (pm.playlist.length : Int)
  | 0, i, pm, _, h0, h1 => by
    refine ⟨rfl, rfl, ?_⟩
    simp only [PlayNextTimes, Nat.cast_zero, add_zero]
    rw [Int.emod_eq_of_lt h0 h1]
  | k + 1, i, pm, hm, h0, h1 => by
    have hpl := PlayNext_playlist (draws i) (resps i) pm
    have hc := PlayNext_cursor_mod (draws i) (resps i) pm hm h0 h1
    have hpos : (0 : Int) < (pm.playlist.length : Int) := by omega
    have ih := PlayNextTimes_cursor draws resps k (i + 1) (PlayNext (draws i) (resps i) pm).1
      (by rw [hpl.2]; exact hm)
      (by rw [hc]; exact Int.emod_nonneg _ (by omega))
      (by rw [hc, hpl.1]; exact Int.emod_lt_of_pos _ hpos)
    simp only [PlayNextTimes]
    refine ⟨ih.1.trans hpl.1, ih.2.1.trans hpl.2, ?_⟩
    rw [ih.2.2, hc, hpl.1, Int.emod_add_emod]
    congr 1
    push_cast
    ring

/-! ### The shuffle order and the play mode in reachable states -/

theorem shuffleOK_of_eq (a b : PlayManager) (h : a.shuffleList = b.shuffleList)
    (hb : ShuffleOK b) : ShuffleOK a := by
  unfold ShuffleOK at hb ⊢
  rw [h]; exact hb

theorem PlayNext_shuffleList (draw : Nat → Nat) (resp : Option String) (pm : PlayManager) :
    (PlayNext draw resp pm).1.shuffleList = pm.shuffleList ∨
    ∃ q : PlayManager,
      (PlayNext draw resp pm).1.shuffleList = (initShuffleList draw q).shuffleList := by
  unfold PlayNext
  split
  · exact Or.inl rfl
  · dsimp only
    split
    · rcases PlayCurrent_shuffleList draw resp
        { pm with currentIndex :=
            if pm.currentIndex + 1 ≥ (pm.playlist.length : Int) then 0
            else pm.currentIndex + 1 } with h | h
      · exact Or.inl h
      · exact Or.inr ⟨_, h.1⟩
    · rcases PlayCurrent_shuffleList draw resp pm with h | h
      · exact Or.inl h
      · exact Or.inr ⟨_, h.1⟩

theorem PlayPrevious_shuffleList (draw : Nat → Nat) (resp : Option String) (pm : PlayManager) :
    (PlayPrevious draw resp pm).1.shuffleList = pm.shuffleList ∨
    ∃ q : PlayManager,
      (PlayPrevious draw resp pm).1.shuffleList = (initShuffleList draw q).shuffleList := by
  unfold PlayPrevious
  split
  · exact Or.inl rfl
  · dsimp only
    split
    · rcases PlayCurrent_shuffleList draw resp
        { pm with currentIndex :=
            if pm.currentIndex - 1 < 0 then (pm.playlist.length : Int) - 1
            else pm.currentIndex - 1 } with h | h
      · exact Or.inl h
      · exact Or.inr ⟨_, h.1⟩
    · rcases PlayCurrent_shuffleList draw resp pm with h | h
      · exact Or.inl h
      · exact Or.inr ⟨_, h.1⟩

theorem PlaySongByIndex_shuffleList (draw : Nat → Nat) (resp : Option String) (idx : Int)
    (pm : PlayManager) :
    (PlaySongByIndex draw resp idx pm).1.shuffleList = pm.shuffleList ∨
    ∃ q : PlayManager,
      (PlaySongByIndex draw resp idx pm).1.shuffleList =
        (initShuffleList draw q).shuffleList := by
  unfold PlaySongByIndex
  split
  · exact Or.inl rfl
  · rcases PlayCurrent_shuffleList draw resp { pm with currentIndex := idx } with h | h
    · exact Or.inl h
    · exact Or.inr ⟨_, h.1⟩

theorem SetPlayMode_shuffleList (draw : Nat → Nat) (mode : String) (pm : PlayManager) :
    (SetPlayMode draw mode pm).1.shuffleList = pm.shuffleList ∨
    ∃ q : PlayManager,
      (SetPlayMode draw mode pm).1.shuffleList = (initShuffleList draw q).shuffleList := by
  unfold SetPlayMode
  split
  · exact Or.inl rfl
  · split
    · exact Or.inl rfl
    · split
      · exact Or.inl rfl
      · split
        · exact Or.inr ⟨{ pm with playMode := mode }, rfl⟩
        · exact Or.inl rfl

theorem SetPlayMode_mode (draw : Nat → Nat) (mode : String) (pm : PlayManager) :
    (SetPlayMode draw mode pm).1.playMode = pm.playMode ∨
    ((SetPlayMode draw mode pm).1.playMode = mode ∧
      (mode = PlayModeNormal ∨ mode = "" ∨ mode = PlayModeRepeat ∨ mode = PlayModeShuffle)) := by
  unfold SetPlayMode
  split
  · exact Or.inl rfl
  · split
    · rename_i h
      rcases h with h | h
      · exact Or.inr ⟨rfl, Or.inl h⟩
      · exact Or.inr ⟨rfl, Or.inr (Or.inl h)⟩
    · split
      · rename_i h
        exact Or.inr ⟨rfl, Or.inr (Or.inr (Or.inl h))⟩
      · split
        · rename_i h
          exact Or.inr ⟨rfl, Or.inr (Or.inr (Or.inr h))⟩
        · exact Or.inl rfl

theorem ResetShuffleList_shuffleList (draw : Nat → Nat) (pm : PlayManager) :
    (ResetShuffleList draw pm).shuffleList = pm.shuffleList ∨
    (ResetShuffleList draw pm).shuffleList = (initShuffleList draw pm).shuffleList := by
  unfold ResetShuffleList
  split
  · exact Or.inl rfl
  · exact Or.inr rfl

theorem PlayList_shuffleList (draw : Nat → Nat) (pm : PlayManager) :
    (PlayList draw pm).1.shuffleList = pm.shuffleList ∨
    (PlayList draw pm).1.shuffleList = (initShuffleList draw pm).shuffleList := by
  unfold PlayList
  split
  · dsimp only
    split
    · exact Or.inr rfl
    · exact Or.inl rfl
  · exact Or.inl rfl

theorem shuffleOK_step (pm : PlayManager) (op : Op) (h : ShuffleOK pm) (hop : op.DrawsOK) :
    ShuffleOK (step pm op) := by
  cases op with
  | SetSongs songs => exact shuffleOK_of_eq _ pm rfl h
  | AddSongs songs => exact shuffleOK_of_eq _ pm rfl h
  | RemoveSong song =>
    rcases RemoveSong_effect song pm with he | ⟨i, _, _, _, _, hs⟩
    · exact shuffleOK_of_eq _ pm (by simp [step, he]) h
    · exact shuffleOK_of_eq _ pm hs h
  | RemoveSongByIndex idx =>
    rcases RemoveSongByIndex_effect idx pm with he | ⟨i, _, _, _, _, hs⟩
    · exact shuffleOK_of_eq _ pm (by simp [step, he]) h
    · exact shuffleOK_of_eq _ pm hs h
  | GetCurrentSong draw =>
    rcases GetCurrentSong_shuffleList draw pm with hs | hs
    · exact shuffleOK_of_eq _ pm hs h
    · exact shuffleOK_of_eq _ _ hs.1 (initShuffleList_shuffleOK draw hop pm)
  | PlayCurrent draw resp =>
    rcases PlayCurrent_shuffleList draw resp pm with hs | hs
    · exact shuffleOK_of_eq _ pm hs h
    · exact shuffleOK_of_eq _ _ hs.1 (initShuffleList_shuffleOK draw hop pm)
  | PlayNext draw resp =>
    rcases PlayNext_shuffleList draw resp pm with hs | ⟨q, hs⟩
    · exact shuffleOK_of_eq _ pm hs h
    · exact shuffleOK_of_eq _ _ hs (initShuffleList_shuffleOK draw hop q)
  | PlayPrevious draw resp =>
    rcases PlayPrevious_shuffleList draw resp pm with hs | ⟨q, hs⟩
    · exact shuffleOK_of_eq _ pm hs h
    · exact shuffleOK_of_eq _ _ hs (initShuffleList_shuffleOK draw hop q)
  | PlaySong resp song => exact shuffleOK_of_eq _ pm (PlaySong_effect resp song pm).2.2.1 h
  | PlaySongByIndex draw resp idx =>
    rcases PlaySongByIndex_shuffleList draw resp idx pm with hs | ⟨q, hs⟩
    · exact shuffleOK_of_eq _ pm hs h
    · exact shuffleOK_of_eq _ _ hs (initShuffleList_shuffleOK draw hop q)
  | SetPlayMode draw mode =>
    rcases SetPlayMode_shuffleList draw mode pm with hs | ⟨q, hs⟩
    · exact shuffleOK_of_eq _ pm hs h
    · exact shuffleOK_of_eq _ _ hs (initShuffleList_shuffleOK draw hop q)
  | ResetShuffleList draw =>
    rcases ResetShuffleList_shuffleList draw pm with hs | hs
    · exact shuffleOK_of_eq _ pm hs h
    · exact shuffleOK_of_eq _ _ hs (initShuffleList_shuffleOK draw hop pm)
  | PlayList draw =>
    rcases PlayList_shuffleList draw pm with hs | hs
    · exact shuffleOK_of_eq _ pm hs h
    · exact shuffleOK_of_eq _ _ hs (initShuffleList_shuffleOK draw hop pm)

theorem reachable_shuffleOK (pm : PlayManager) (h : Reachable pm) : ShuffleOK pm := by
  obtain ⟨ops, hops, rfl⟩ := h
  exact run_invariant ShuffleOK Op.DrawsOK shuffleOK_step ops NewPlayManager
    (by simp [ShuffleOK, NewPlayManager]) hops

theorem modeOK_step (pm : PlayManager) (op : Op) (h : ModeOK pm) (_ : True) :
    ModeOK (step pm op) := by
  unfold ModeOK at h ⊢
  cases op with
  | SetSongs songs => exact h
  | AddSongs songs => exact h
  | RemoveSong song =>
    rcases RemoveSong_effect song pm with he | ⟨i, _, _, _, hm, _⟩
    · simpa [step, he] using h
    · simp only [step, hm]; exact h
  | RemoveSongByIndex idx =>
    rcases RemoveSongByIndex_effect idx pm with he | ⟨i, _, _, _, hm, _⟩
    · simpa [step, he] using h
    · simp only [step, hm]; exact h
  | GetCurrentSong draw => simp only [step, (GetCurrentSong_frame draw pm).2.2.1]; exact h
  | PlayCurrent draw resp => simp only [step, (PlayCurrent_frame draw resp pm).2.2.1]; exact h
  | PlayNext draw resp => simp only [step, (PlayNext_playlist draw resp pm).2]; exact h
  | PlayPrevious draw resp => simp only [step, (PlayPrevious_playlist draw resp pm).2]; exact h
  | PlaySong resp song => simp only [step, (PlaySong_effect resp song pm).2.1]; exact h
  | PlaySongByIndex draw resp idx =>
    simp only [step, (PlaySongByIndex_effect draw resp idx pm).2.1]; exact h
  | SetPlayMode draw mode =>
    rcases SetPlayMode_mode draw mode pm with hm | ⟨hm, hv⟩
    · simp only [step, hm]; exact h
    · simp only [step, hm]; exact hv
  | ResetShuffleList draw => simp only [step, (ResetShuffleList_effect draw pm).2.1]; exact h
  | PlayList draw => simp only [step, (PlayList_frame draw pm).2.2]; exact h

theorem reachable_modeOK (pm : PlayManager) (h : Reachable pm) : ModeOK pm := by
  obtain ⟨ops, _, rfl⟩ := h
  exact run_invariant ModeOK (fun _ => True) modeOK_step ops NewPlayManager
    (Or.inl rfl) (fun _ _ => trivial)

/-! ### The shuffled view -/

theorem mapM_index_ok {α : Type} (pl : List α) (d : α) :
    ∀ sl : List Nat, (∀ k ∈ sl, k < pl.length) →
      sl.mapM (index pl) = .ok (sl.map (fun k => pl.getD k d))
  | [], _ => rfl
  | k :: rest, h => by
    have hk : k < pl.length := h k (List.mem_cons_self k rest)
    have ih := mapM_index_ok pl d rest (fun j hj => h j (List.mem_cons_of_mem k hj))
    rw [List.mapM_cons, index_eq_ok pl k hk, ih]
    simp [bind, Except.bind, pure, Except.pure, List.getElem?_eq_getElem hk]

theorem map_getD_range {α : Type} (pl : List α) (d : α) :
    (List.range pl.length).map (fun k => pl.getD k d) = pl := by
  apply List.ext_getElem
  · simp
  · intro i h1 h2
    simp [List.getElem?_eq_getElem h2]

theorem fresh_shuffleList_perm (draw : Nat → Nat) (hd : DrawOK draw) (pm : PlayManager)
    (hs : ShuffleOK pm) :
    (if pm.shuffleList.length ≠ pm.playlist.length then initShuffleList draw pm
      else pm).shuffleList.Perm (List.range pm.playlist.length) ∧
    (if pm.shuffleList.length ≠ pm.playlist.length then initShuffleList draw pm
      else pm).playlist = pm.playlist := by
  split
  · exact ⟨initShuffleList_perm draw hd pm, rfl⟩
  · rename_i hl
    have hl : pm.shuffleList.length = pm.playlist.length := by
      by_contra hne; exact hl hne
    unfold ShuffleOK at hs
    rw [hl] at hs
    exact ⟨hs, rfl⟩

theorem PlayList_shuffle (draw : Nat → Nat) (hd : DrawOK draw) (pm : PlayManager)
    (hs : ShuffleOK pm) (hm : pm.playMode = PlayModeShuffle) :
    ∃ l : List Song, (PlayList draw pm).2 = .ok l ∧ l.length = pm.playlist.length ∧
      l.Perm pm.playlist ∧
      (PlayList draw pm).1.shuffleList.Perm (List.range pm.playlist.length) := by
  obtain ⟨hp, hpl⟩ := fresh_shuffleList_perm draw hd pm hs
  have hlt : ∀ k ∈ (if pm.shuffleList.length ≠ pm.playlist.length then initShuffleList draw pm
      else pm).shuffleList, k < pm.playlist.length := by
    intro k hk
    exact List.mem_range.mp (hp.mem_iff.mp hk)
  have hmap := mapM_index_ok pm.playlist songA _ hlt
  have hperm := (hp.map (fun k => pm.playlist.getD k songA))
  rw [map_getD_range] at hperm
  refine ⟨_, ?_, ?_, hperm, ?_⟩
  · simp only [PlayList, if_pos hm, hpl]
    exact hmap
  · simpa using hperm.length_eq
  · simp only [PlayList, if_pos hm]
    exact hp

/-! ### Traversal in shuffle mode -/

theorem GetCurrentSong_fresh (draw : Nat → Nat) (pm : PlayManager)
    (hm : pm.playMode = PlayModeShuffle) (hl : pm.shuffleList.length = pm.playlist.length)
    (h0 : 0 ≤ pm.currentIndex) (h1 : pm.currentIndex < (pm.playlist.length : Int)) :
    GetCurrentSong draw pm =
      (pm, (index pm.shuffleList pm.currentIndex.toNat).bind (index pm.playlist)) := by
  have hng : ¬ (pm.currentIndex < 0 ∨ pm.currentIndex ≥ (pm.playlist.length : Int)) := by omega
  simp [GetCurrentSong, hng, hm, hl]

theorem GetCurrentSong_shuffle (draw : Nat → Nat) (hd : DrawOK draw) (pm : PlayManager)
    (hs : ShuffleOK pm) (hm : pm.playMode = PlayModeShuffle)
    (h0 : 0 ≤ pm.currentIndex) (h1 : pm.currentIndex < (pm.playlist.length : Int)) :
    (GetCurrentSong draw pm).1.shuffleList.Perm (List.range pm.playlist.length) ∧
    (GetCurrentSong draw pm).2 =
      (index (GetCurrentSong draw pm).1.shuffleList pm.currentIndex.toNat).bind
        (index pm.playlist) := by
  obtain ⟨hp, hpl⟩ := fresh_shuffleList_perm draw hd pm hs
  have hng : ¬ (pm.currentIndex < 0 ∨ pm.currentIndex ≥ (pm.playlist.length : Int)) := by omega
  have hc : (if pm.shuffleList.length ≠ pm.playlist.length then initShuffleList draw pm
      else pm).currentIndex = pm.currentIndex := by
    split <;> rfl
  simp only [GetCurrentSong, if_neg hng, if_pos hm, hpl, hc, and_true]
  exact hp

theorem PlayNext_shuffleList_fresh (draw : Nat → Nat) (resp : Option String) (pm : PlayManager)
    (hl : pm.shuffleList.length = pm.playlist.length) :
    (PlayNext draw resp pm).1.shuffleList = pm.shuffleList := by
  unfold PlayNext
  split
  · rfl
  · dsimp only
    split
    · rcases PlayCurrent_shuffleList draw resp
        { pm with currentIndex :=
            if pm.currentIndex + 1 ≥ (pm.playlist.length : Int) then 0
            else pm.currentIndex + 1 } with h | h
      · exact h
      · exact absurd hl h.2.2
    · rcases PlayCurrent_shuffleList draw resp pm with h | h
      · exact h
      · exact absurd hl h.2.2

theorem PlayPrevious_shuffleList_fresh (draw : Nat → Nat) (resp : Option String)
    (pm : PlayManager) (hl : pm.shuffleList.length = pm.playlist.length) :
    (PlayPrevious draw resp pm).1.shuffleList = pm.shuffleList := by
  unfold PlayPrevious
  split
  · rfl
  · dsimp only
    split
    · rcases PlayCurrent_shuffleList draw resp
        { pm with currentIndex :=
            if pm.currentIndex - 1 < 0 then (pm.playlist.length : Int) - 1
            else pm.currentIndex - 1 } with h | h
      · exact h
      · exact absurd hl h.2.2
    · rcases PlayCurrent_shuffleList draw resp pm with h | h
      · exact h
      · exact absurd hl h.2.2

theorem PlayNext_cursor_nat (draw : Nat → Nat) (resp : Option String) (pm : PlayManager)
    (hm : pm.playMode = PlayModeNormal ∨ pm.playMode = "" ∨ pm.playMode = PlayModeShuffle)
    (m : Nat) (hc : pm.currentIndex = (m : Int)) (hlt : m < pm.playlist.length) :
    (PlayNext draw resp pm).1.currentIndex = (((m + 1) % pm.playlist.length : Nat) : Int) := by
  rw [PlayNext_cursor_mod draw resp pm hm (by omega) (by omega), hc]
  push_cast
  rfl

theorem PlayNextReport_fresh (draws obs : Nat → Nat → Nat) (resps : Nat → Option String) :
    ∀ (k i m : Nat) (pm : PlayManager), pm.playMode = PlayModeShuffle →
      pm.shuffleList.length = pm.playlist.length →
      pm.currentIndex = (m : Int) → m < pm.playlist.length →
      (PlayNextReport draws obs resps i k pm).1 =
        (List.range k).map (fun j =>
          (index pm.shuffleList ((m + 1 + j) % pm.playlist.length)).bind (index pm.playlist)) ∧
      (PlayNextReport draws obs resps i k pm).2.currentIndex =
        (((m + k) % pm.playlist.length : Nat) : Int) ∧
      (PlayNextReport draws obs resps i k pm).2.playlist = pm.playlist ∧
      (PlayNextReport draws obs resps i k pm).2.shuffleList = pm.shuffleList ∧
      (PlayNextReport draws obs resps i k pm).2.playMode = pm.playMode
  | 0, i, m, pm, _, _, hc, hlt => by
    simp [PlayNextReport, hc, Nat.mod_eq_of_lt hlt]
  | k + 1, i, m, pm, hm, hl, hc, hlt => by
    have hpl := PlayNext_playlist (draws i) (resps i) pm
    have hsl := PlayNext_shuffleList_fresh (draws i) (resps i) pm hl
    have hcur := PlayNext_cursor_nat (draws i) (resps i) pm (Or.inr (Or.inr hm)) m hc hlt
    have hpos : 0 < pm.playlist.length := by omega
    have hm1 : (m + 1) % pm.playlist.length < pm.playlist.length := Nat.mod_lt _ hpos
    have hg := GetCurrentSong_fresh (obs i) (PlayNext (draws i) (resps i) pm).1
      (by rw [hpl.2]; exact hm) (by rw [hsl, hpl.1]; exact hl)
      (by rw [hcur]; omega) (by rw [hcur, hpl.1]; omega)
    have ih := PlayNextReport_fresh draws obs resps k (i + 1) ((m + 1) % pm.playlist.length)
      (PlayNext (draws i) (resps i) pm).1
      (by rw [hpl.2]; exact hm) (by rw [hsl, hpl.1]; exact hl) hcur (by rw [hpl.1]; exact hm1)
    simp only [PlayNextReport, hg]
    rw [hpl.1, hsl, hpl.2] at ih
    refine ⟨?_, ?_, ih.2.2.1, ih.2.2.2.1, ih.2.2.2.2⟩
    · rw [ih.1, List.range_succ_eq_map, List.map_cons, List.map_map, hcur, hsl, hpl.1]
      congr 1
      apply List.map_congr_left
      intro j _
      simp only [Function.comp, Nat.succ_eq_add_one]
      have : ((m + 1) % pm.playlist.length + 1 + j) % pm.playlist.length =
          (m + 1 + (j + 1)) % pm.playlist.length := by
        rw [Nat.add_assoc, Nat.mod_add_mod]
        congr 1
        omega
      rw [this]
    · rw [ih.2.1, Nat.mod_add_mod]
      congr 2
      omega

theorem range_shift_eq_rotate (n r : Nat) :
    (List.range n).map (fun j => (r + j) % n) = (List.range n).rotate r := by
  apply List.ext_getElem
  · simp
  · intro i h1 h2
    rw [List.getElem_rotate]
    simp [Nat.add_comm]

theorem range_shift_perm (n r : Nat) :
    ((List.range n).map (fun j => (r + j) % n)).Perm (List.range n) := by
  rw [range_shift_eq_rotate]
  exact List.rotate_perm _ _

theorem index_bind_ok {β : Type} (sl : List Nat) (x : Nat) (hx : x < sl.length)
    (g : Nat → Except Err β) : (index sl x).bind g = g (sl.getD x 0) := by
  rw [index_eq_ok sl x hx, List.getD_eq_getElem sl 0 hx]
  rfl

theorem index_eq_ok_getD {α : Type} (xs : List α) (d : α) (i : Nat) (h : i < xs.length) :
    index xs i = .ok (xs.getD i d) := by
  rw [index_eq_ok xs i h, List.getD_eq_getElem xs d h]

theorem staleShuffleOps_reachable : Reachable (run NewPlayManager staleShuffleOps) := by
  refine ⟨staleShuffleOps, ?_, rfl⟩
  intro op hop
  simp only [staleShuffleOps, List.mem_cons, List.mem_singleton, List.not_mem_nil,
    or_false] at hop
  rcases hop with rfl | rfl | rfl
  · exact trivial
  · exact fun i => Nat.zero_le i
  · exact trivial

/-! ### Repeat mode, the empty playlist, and `SetPlayMode` -/

theorem GetCurrentSong_snd_congr (d1 d2 : Nat → Nat) (a b : PlayManager)
    (hm : b.playMode ≠ PlayModeShuffle) (hpl : a.playlist = b.playlist)
    (hc : a.currentIndex = b.currentIndex) (hmode : a.playMode = b.playMode) :
    (GetCurrentSong d1 a).2 = (GetCurrentSong d2 b).2 := by
  unfold GetCurrentSong
  rw [hpl, hc, hmode]
  simp only [if_neg hm]
  split <;> rfl

theorem PlayNext_repeat (draw : Nat → Nat) (resp : Option String) (pm : PlayManager)
    (hm : pm.playMode = PlayModeRepeat) :
    (PlayNext draw resp pm).1.currentIndex = pm.currentIndex ∧
    (PlayNext draw resp pm).1.shuffleList = pm.shuffleList := by
  have hno : ¬ (pm.playMode = PlayModeNormal ∨ pm.playMode = "" ∨
      pm.playMode = PlayModeShuffle) := by rw [hm]; decide
  have hns : pm.playMode ≠ PlayModeShuffle := by rw [hm]; decide
  constructor
  · rw [PlayNext_cursor, if_neg hno]
    split <;> rfl
  · unfold PlayNext
    split
    · rfl
    · simp only [if_neg hno]
      rcases PlayCurrent_shuffleList draw resp pm with h | h
      · exact h
      · exact absurd h.2.1 hns

theorem PlayPrevious_repeat (draw : Nat → Nat) (resp : Option String) (pm : PlayManager)
    (hm : pm.playMode = PlayModeRepeat) :
    (PlayPrevious draw resp pm).1.currentIndex = pm.currentIndex ∧
    (PlayPrevious draw resp pm).1.shuffleList = pm.shuffleList := by
  have hno : ¬ (pm.playMode = PlayModeNormal ∨ pm.playMode = "" ∨
      pm.playMode = PlayModeShuffle) := by rw [hm]; decide
  have hns : pm.playMode ≠ PlayModeShuffle := by rw [hm]; decide
  constructor
  · rw [PlayPrevious_cursor, if_neg hno]
    split <;> rfl
  · unfold PlayPrevious
    split
    · rfl
    · simp only [if_neg hno]
      rcases PlayCurrent_shuffleList draw resp pm with h | h
      · exact h
      · exact absurd h.2.1 hns

theorem index_ne_invalid {α : Type} (xs : List α) (i : Nat) :
    index xs i ≠ .error .ErrInvalidIndex := by
  unfold index
  split <;> simp

theorem index_bind_ne_invalid {α β : Type} (xs : List α) (ys : List β) (i : Nat)
    (f : α → Nat) :
    ((index xs i).bind (fun x => index ys (f x))) ≠ .error .ErrInvalidIndex := by
  cases h : index xs i with
  | error e =>
    have := index_ne_invalid xs i
    rw [h] at this
    simpa [Except.bind] using this
  | ok x => exact index_ne_invalid ys (f x)

theorem SetPlayMode_result (draw : Nat → Nat) (mode : String) (pm : PlayManager) :
    (¬ mode = pm.playMode ∧
      ¬ (mode = PlayModeNormal ∨ mode = PlayModeRepeat ∨ mode = PlayModeShuffle ∨ mode = "") ∧
      SetPlayMode draw mode pm = (pm, .error .invalidPlayMode)) ∨
    ((mode = pm.playMode ∨
        (mode = PlayModeNormal ∨ mode = PlayModeRepeat ∨ mode = PlayModeShuffle ∨ mode = "")) ∧
      (SetPlayMode draw mode pm).2 = .ok ()) := by
  unfold SetPlayMode
  split
  · rename_i h
    exact Or.inr ⟨Or.inl h, rfl⟩
  · rename_i h1
    split
    · rename_i h2
      refine Or.inr ⟨Or.inr ?_, rfl⟩
      rcases h2 with h | h
      · exact Or.inl h
      · exact Or.inr (Or.inr (Or.inr h))
    · rename_i h2
      split
      · rename_i h3
        exact Or.inr ⟨Or.inr (Or.inr (Or.inl h3)), rfl⟩
      · rename_i h3
        split
        · rename_i h4
          exact Or.inr ⟨Or.inr (Or.inr (Or.inr (Or.inl h4))), rfl⟩
        · rename_i h4
          refine Or.inl ⟨h1, ?_, rfl⟩
          intro hv
          rcases hv with h | h | h | h
          · exact h2 (Or.inl h)
          · exact h3 h
          · exact h4 h
          · exact h2 (Or.inr h)

/-! ### Removal -/

theorem indexOfPath_of_first (path : String) :
    ∀ (l : List Song) (i : Nat), IsFirstMatch path l i → indexOfPath path l = some i
  | [], i, h => by
    obtain ⟨⟨s, hs, _⟩, _⟩ := h
    simp at hs
  | s :: rest, i, h => by
    obtain ⟨⟨t, ht, htp⟩, hmin⟩ := h
    unfold indexOfPath
    by_cases hsp : s.Path = path
    · rw [if_pos hsp]
      cases i with
      | zero => rfl
      | succ k => exact absurd hsp (hmin 0 (Nat.succ_pos k) s (List.getElem?_cons_zero))
    · rw [if_neg hsp]
      cases i with
      | zero =>
        simp only [List.getElem?_cons_zero, Option.some.injEq] at ht
        subst ht
        exact absurd htp hsp
      | succ k =>
        have hk : IsFirstMatch path rest k := by
          refine ⟨⟨t, by simpa using ht, htp⟩, ?_⟩
          intro j hj u hu
          exact hmin (j + 1) (by omega) u (by simpa using hu)
        rw [indexOfPath_of_first path rest k hk]
        rfl

theorem indexOfPath_is_first (path : String) :
    ∀ (l : List Song) (i : Nat), indexOfPath path l = some i → IsFirstMatch path l i
  | [], i, h => by simp [indexOfPath] at h
  | s :: rest, i, h => by
    unfold indexOfPath at h
    by_cases hsp : s.Path = path
    · rw [if_pos hsp] at h
      simp only [Option.some.injEq] at h
      subst h
      exact ⟨⟨s, List.getElem?_cons_zero, hsp⟩, fun j hj => absurd hj (Nat.not_lt_zero j)⟩
    · rw [if_neg hsp] at h
      cases hr : indexOfPath path rest with
      | none => simp [hr] at h
      | some k =>
        simp only [hr, Option.map_some', Option.some.injEq] at h
        subst h
        obtain ⟨⟨t, ht, htp⟩, hmin⟩ := indexOfPath_is_first path rest k hr
        refine ⟨⟨t, by simpa using ht, htp⟩, ?_⟩
        intro j hj u hu
        cases j with
        | zero =>
          simp only [List.getElem?_cons_zero, Option.some.injEq] at hu
          subst hu
          exact hsp
        | succ m => exact hmin m (by omega) u (by simpa using hu)

theorem indexOfPath_none (path : String) :
    ∀ (l : List Song), (∀ s ∈ l, s.Path ≠ path) → indexOfPath path l = none
  | [], _ => rfl
  | s :: rest, h => by
    unfold indexOfPath
    rw [if_neg (h s (List.mem_cons_self s rest)),
      indexOfPath_none path rest (fun t ht => h t (List.mem_cons_of_mem s ht))]
    rfl

theorem indexOfPath_some_of_mem (path : String) :
    ∀ (l : List Song), (∃ s ∈ l, s.Path = path) → ∃ i, indexOfPath path l = some i
  | [], h => by
    obtain ⟨s, hs, _⟩ := h
    simp at hs
  | s :: rest, h => by
    unfold indexOfPath
    by_cases hsp : s.Path = path
    · exact ⟨0, by rw [if_pos hsp]⟩
    · obtain ⟨t, ht, htp⟩ := h
      have htr : t ∈ rest := by
        rcases List.mem_cons.mp ht with h1 | h1
        · subst h1; exact absurd htp hsp
        · exact h1
      obtain ⟨k, hk⟩ := indexOfPath_some_of_mem path rest ⟨t, htr, htp⟩
      exact ⟨k + 1, by rw [if_neg hsp, hk]; rfl⟩

theorem RemoveSongByIndex_in_range (i : Nat) (pm : PlayManager) (hi : i < pm.playlist.length) :
    RemoveSongByIndex (i : Int) pm =
      { pm with
        playlist := pm.playlist.eraseIdx i
        currentIndex :=
          if pm.currentIndex ≥ (i : Int) then pm.currentIndex - 1 else pm.currentIndex } := by
  have hng : ¬ ((i : Int) < 0 ∨ (i : Int) ≥ (pm.playlist.length : Int)) := by omega
  simp only [RemoveSongByIndex, if_neg hng, Int.toNat_ofNat]

/-- C1. When every draw respects the range of `rand.Intn` (the draw used at
loop index `i` lies in `[0, i]`), `shuffle` returns a permutation of the slice
it is given, and `initShuffleList` leaves a shuffle order whose length is the
playlist length `n`, that is a permutation of `0, ..., n - 1`, has no
duplicate, and contains each index below `n` exactly once; the other fields of
the manager are untouched. -/
theorem C1_shuffle_is_permutation (draw : Nat → Nat) (hd : DrawOK draw)
    (slice : List Nat) (pm : PlayManager) :
    (shuffle draw slice).Perm slice ∧
    (initShuffleList draw pm).shuffleList.length = pm.playlist.length ∧
    (initShuffleList draw pm).shuffleList.Perm (List.range pm.playlist.length) ∧
    (initShuffleList draw pm).shuffleList.Nodup ∧
    (∀ k, k < pm.playlist.length ↔ k ∈ (initShuffleList draw pm).shuffleList) ∧
    (∀ k, k < pm.playlist.length → (initShuffleList draw pm).shuffleList.count k = 1) ∧
    (initShuffleList draw pm).playlist = pm.playlist ∧
    (initShuffleList draw pm).currentIndex = pm.currentIndex ∧
    (initShuffleList draw pm).playMode = pm.playMode := by
  have hp := initShuffleList_perm draw hd pm
  have hn : (initShuffleList draw pm).shuffleList.Nodup :=
    hp.nodup_iff.mpr (List.nodup_range _)
  refine ⟨shuffle_perm draw hd slice, initShuffleList_length draw hd pm, hp, hn, ?_, ?_,
    rfl, rfl, rfl⟩
  · intro k
    rw [hp.mem_iff, List.mem_range]
  · intro k hk
    exact List.count_eq_one_of_mem hn (hp.mem_iff.mpr (List.mem_range.mpr hk))

/-- C1 at a playlist of three songs with the draws `2 ↦ 0`, `1 ↦ 1`. -/
theorem C1_shuffle_is_permutation_witness :
    DrawOK (fun i => if i = 1 then 1 else 0) ∧
    shuffle (fun i => if i = 1 then 1 else 0) [0, 1, 2] = [2, 1, 0] ∧
    (shuffle (fun i => if i = 1 then 1 else 0) [0, 1, 2]).Perm [0, 1, 2] :=
  ⟨fun i => by show (if i = 1 then 1 else 0) ≤ i; split <;> omega, by decide,
    (C1_shuffle_is_permutation _
      (fun i => by show (if i = 1 then 1 else 0) ≤ i; split <;> omega) [0, 1, 2]
      NewPlayManager).1⟩

/-- C2 (as amended). In every state reached from `NewPlayManager` by calls of
the public methods the cursor is at least `-1`.  If no call is `SetSongs`, the
cursor is moreover at most `max (len(playlist) - 1) 0`.  If no call is
`SetSongs`, `RemoveSong` or `RemoveSongByIndex`, then either the playlist is
empty and the cursor is `0`, or `0 ≤ currentIndex ≤ len(playlist) - 1`. -/
theorem C2_cursor_invariant_amended (ops : List Op) :
    -1 ≤ (run NewPlayManager ops).currentIndex ∧
    ((∀ op ∈ ops, op.isSetSongs = false) →
      (run NewPlayManager ops).currentIndex ≤
        max (((run NewPlayManager ops).playlist.length : Int) - 1) 0) ∧
    ((∀ op ∈ ops, op.isSetSongs = false ∧ op.isRemove = false) →
      ((run NewPlayManager ops).playlist = [] ∧ (run NewPlayManager ops).currentIndex = 0) ∨
      (0 ≤ (run NewPlayManager ops).currentIndex ∧
        (run NewPlayManager ops).currentIndex ≤
          ((run NewPlayManager ops).playlist.length : Int) - 1)) := by
  refine ⟨?_, ?_, ?_⟩
  · exact run_invariant (fun pm => -1 ≤ pm.currentIndex) (fun _ => True) cursor_ge_step ops
      NewPlayManager (by decide) (fun _ _ => trivial)
  · intro hops
    have h := run_invariant
      (fun pm => -1 ≤ pm.currentIndex ∧
        (pm.currentIndex < (pm.playlist.length : Int) ∨ pm.currentIndex ≤ 0))
      (fun op => op.isSetSongs = false) cursor_le_step ops NewPlayManager (by decide) hops
    dsimp only at h
    omega
  · intro hops
    have h := run_invariant
      (fun pm => 0 ≤ pm.currentIndex ∧
        (pm.currentIndex < (pm.playlist.length : Int) ∨ pm.currentIndex = 0))
      (fun op => op.isSetSongs = false ∧ op.isRemove = false) cursor_in_range_step ops
      NewPlayManager (by decide) hops
    dsimp only at h
    by_cases hl : (run NewPlayManager ops).playlist.length = 0
    · left
      exact ⟨List.length_eq_zero.mp hl, by omega⟩
    · right
      omega

/-- C2 (as amended) at `growOps`, a call sequence without `SetSongs` and without
removal: the cursor ends at `1` in a list of three songs. -/
theorem C2_cursor_invariant_amended_witness :
    (run NewPlayManager growOps).currentIndex = 1 ∧
    (run NewPlayManager growOps).playlist.length = 3 ∧
    (((run NewPlayManager growOps).playlist = [] ∧ (run NewPlayManager growOps).currentIndex = 0) ∨
      (0 ≤ (run NewPlayManager growOps).currentIndex ∧
        (run NewPlayManager growOps).currentIndex ≤
          ((run NewPlayManager growOps).playlist.length : Int) - 1)) :=
  ⟨by decide, by decide,
    (C2_cursor_invariant_amended growOps).2.2 (by
      intro op hop
      simp only [growOps, List.mem_cons, List.mem_singleton, List.not_mem_nil, or_false] at hop
      rcases hop with rfl | rfl | rfl | rfl <;> exact ⟨rfl, rfl⟩)⟩

/-- C2 fails as stated.  After `SetSongs([A, B])` and `RemoveSongByIndex(0)` the
playlist is `[B]` and the cursor is `-1`; after `SetSongs([A, B, C])`,
`PlaySongByIndex(2)` and `SetSongs([A])` the playlist is `[A]` and the cursor is
`2`.  Both states are reachable, so the cursor invariant does not hold in every
reachable state. -/
theorem C2_counterexample :
    Reachable (run NewPlayManager removeAtCursorOps) ∧
    (run NewPlayManager removeAtCursorOps).playlist = [songB] ∧
    (run NewPlayManager removeAtCursorOps).currentIndex = -1 ∧
    Reachable (run NewPlayManager shrinkOps) ∧
    (run NewPlayManager shrinkOps).playlist = [songA] ∧
    (run NewPlayManager shrinkOps).currentIndex = 2 ∧
    ¬ (∀ pm : PlayManager, Reachable pm →
        pm.playlist = [] ∨
          (0 ≤ pm.currentIndex ∧ pm.currentIndex ≤ (pm.playlist.length : Int) - 1)) := by
  have hr1 : Reachable (run NewPlayManager removeAtCursorOps) :=
    ⟨removeAtCursorOps, by
      intro op hop
      simp only [removeAtCursorOps, List.mem_cons, List.mem_singleton, List.not_mem_nil,
        or_false] at hop
      rcases hop with rfl | rfl <;> exact trivial, rfl⟩
  have hr2 : Reachable (run NewPlayManager shrinkOps) :=
    ⟨shrinkOps, by
      intro op hop
      simp only [shrinkOps, List.mem_cons, List.mem_singleton, List.not_mem_nil,
        or_false] at hop
      rcases hop with rfl | rfl | rfl
      · exact trivial
      · exact fun i => le_refl i
      · exact trivial, rfl⟩
  have h1 : (run NewPlayManager removeAtCursorOps).playlist = [songB] := by decide
  have h2 : (run NewPlayManager removeAtCursorOps).currentIndex = -1 := by decide
  refine ⟨hr1, h1, h2, hr2, by decide, by decide, ?_⟩
  intro hall
  rcases hall _ hr1 with h | h
  · rw [h1] at h; exact absurd h (by decide)
  · rw [h2] at h; omega

/-- C3. In `normal` mode, on a playlist of `n > 0` songs with the cursor `c` in
`[0, n)`, one call of `PlayNext` moves the cursor to `c + 1`, or to `0` when
`c = n - 1`, whatever the player answers; `n` calls in a row leave the playlist
as it was and bring the cursor back to `c`, so that `GetCurrentSong` succeeds
with the same song `playlist[c]` before and after the `n` calls. -/
theorem C3_playNext_cycle (pm : PlayManager) (draws : Nat → Nat → Nat)
    (resps : Nat → Option String) (draw draw1 draw2 : Nat → Nat) (resp : Option String)
    (hm : pm.playMode = PlayModeNormal)
    (h0 : 0 ≤ pm.currentIndex) (h1 : pm.currentIndex < (pm.playlist.length : Int)) :
    (PlayNext draw resp pm).1.currentIndex =
      (if pm.currentIndex = (pm.playlist.length : Int) - 1 then 0 else pm.currentIndex + 1) ∧
    (PlayNext draw resp pm).1.playlist = pm.playlist ∧
    (PlayNextTimes draws resps 0 pm.playlist.length pm).currentIndex = pm.currentIndex ∧
    (PlayNextTimes draws resps 0 pm.playlist.length pm).playlist = pm.playlist ∧
    (GetCurrentSong draw2 (PlayNextTimes draws resps 0 pm.playlist.length pm)).2 =
      (GetCurrentSong draw1 pm).2 ∧
    ∃ hlt : pm.currentIndex.toNat < pm.playlist.length,
      (GetCurrentSong draw1 pm).2 = .ok pm.playlist[pm.currentIndex.toNat] := by
  have hmode : pm.playMode = PlayModeNormal ∨ pm.playMode = "" ∨ pm.playMode = PlayModeShuffle :=
    Or.inl hm
  have hns : pm.playMode ≠ PlayModeShuffle := by rw [hm]; decide
  have hn : ¬ pm.playlist.length = 0 := by omega
  have ht := PlayNextTimes_cursor draws resps pm.playlist.length 0 pm hmode h0 h1
  have hback : (PlayNextTimes draws resps 0 pm.playlist.length pm).currentIndex =
      pm.currentIndex := by
    rw [ht.2.2, Int.add_emod_self, Int.emod_eq_of_lt h0 h1]
  obtain ⟨hlt, hg⟩ := GetCurrentSong_canonical draw1 pm hns h0 h1
  obtain ⟨hlt2, hg2⟩ := GetCurrentSong_canonical draw2
    (PlayNextTimes draws resps 0 pm.playlist.length pm) (by rw [ht.2.1]; exact hns)
    (by rw [hback]; exact h0) (by rw [hback, ht.1]; exact h1)
  refine ⟨?_, (PlayNext_playlist draw resp pm).1, hback, ht.1, ?_, hlt, by rw [hg]⟩
  · rw [PlayNext_cursor, if_neg hn, if_pos hmode]
    split <;> split <;> omega
  · rw [hg, hg2]
    simp only [ht.1, hback]

/-- C3 on the playlist `[A, B, C]` with the cursor on `A`: the calls show `B`,
`C`, and after the third call `A` again. -/
theorem C3_playNext_cycle_witness :
    (GetCurrentSong drawSelf (PlayNextTimes (fun _ => drawSelf) (fun _ => none) 0 1
      (SetSongs [songA, songB, songC] NewPlayManager))).2 = .ok songB ∧
    (GetCurrentSong drawSelf (PlayNextTimes (fun _ => drawSelf) (fun _ => none) 0 2
      (SetSongs [songA, songB, songC] NewPlayManager))).2 = .ok songC ∧
    (GetCurrentSong drawSelf (PlayNextTimes (fun _ => drawSelf) (fun _ => none) 0 3
      (SetSongs [songA, songB, songC] NewPlayManager))).2 = .ok songA ∧
    (PlayNextTimes (fun _ => drawSelf) (fun _ => none) 0 3
      (SetSongs [songA, songB, songC] NewPlayManager)).currentIndex = 0 :=
  ⟨by decide, by decide, by decide,
    (C3_playNext_cycle (SetSongs [songA, songB, songC] NewPlayManager) (fun _ => drawSelf)
      (fun _ => none) drawSelf drawSelf drawSelf none rfl (by decide) (by decide)).2.2.1⟩

/-- C4. In a reachable state whose play mode is `shuffle`, also one whose
shuffle order is stale because the playlist changed since it was generated,
`PlayList` returns a list of the same length as the canonical playlist that is
a permutation of it; in a state with any other play mode `PlayList` returns the
canonical playlist itself, in insertion order, and changes nothing. -/
theorem C4_playList_view (draw : Nat → Nat) (hd : DrawOK draw) (pm : PlayManager)
    (hr : Reachable pm) :
    (pm.playMode = PlayModeShuffle →
      ∃ l : List Song, (PlayList draw pm).2 = .ok l ∧ l.length = pm.playlist.length ∧
        l.Perm pm.playlist) ∧
    (pm.playMode ≠ PlayModeShuffle → PlayList draw pm = (pm, .ok pm.playlist)) := by
  constructor
  · intro hm
    obtain ⟨l, h1, h2, h3, _⟩ := PlayList_shuffle draw hd pm (reachable_shuffleOK pm hr) hm
    exact ⟨l, h1, h2, h3⟩
  · intro hm
    simp [PlayList, hm]

/-- C4 at the state after `staleShuffleOps`: the playlist is `[A, C]`, the
shuffle order still has three entries, and `PlayList` returns `[C, A]`. -/
theorem C4_playList_view_witness :
    (run NewPlayManager staleShuffleOps).playlist = [songA, songC] ∧
    (run NewPlayManager staleShuffleOps).shuffleList.length = 3 ∧
    (PlayList drawZero (run NewPlayManager staleShuffleOps)).2 = .ok [songC, songA] ∧
    ((run NewPlayManager staleShuffleOps).playMode = PlayModeShuffle →
      ∃ l : List Song, (PlayList drawZero (run NewPlayManager staleShuffleOps)).2 = .ok l ∧
        l.length = (run NewPlayManager staleShuffleOps).playlist.length ∧
        l.Perm (run NewPlayManager staleShuffleOps).playlist) :=
  ⟨by decide, by decide, by decide,
    (C4_playList_view drawZero (fun i => Nat.zero_le i) (run NewPlayManager staleShuffleOps)
      ⟨staleShuffleOps, by
        intro op hop
        simp only [staleShuffleOps, List.mem_cons, List.mem_singleton, List.not_mem_nil,
          or_false] at hop
        rcases hop with rfl | rfl | rfl
        · exact trivial
        · exact fun i => Nat.zero_le i
        · exact trivial, rfl⟩).1⟩

/-- C5. Take a state in `shuffle` mode whose shuffle order is a rearrangement
of `0, ..., len(shuffleList) - 1` (every reachable state is such a state, see
`reachable_shuffleOK`), with a playlist of `n > 0` songs and the cursor in
`[0, n)`.  Read the current song with `GetCurrentSong`, then call `PlayNext`
`n` times and read the current song after each call.  The `n` songs read after
the calls are `playlist[p]` for positions `p` that run through a permutation of
`0, ..., n - 1`, so every position of the canonical playlist is read exactly
once and the songs are a permutation of the playlist; the song read after the
`n`-th call is the song read before the first call, and the cursor is back
where it started. -/
theorem C5_shuffle_traversal (pm : PlayManager) (d0 : Nat → Nat) (hd0 : DrawOK d0)
    (draws obs : Nat → Nat → Nat) (resps : Nat → Option String)
    (hs : ShuffleOK pm) (hm : pm.playMode = PlayModeShuffle)
    (h0 : 0 ≤ pm.currentIndex) (h1 : pm.currentIndex < (pm.playlist.length : Int)) :
    ∃ (ps : List Nat) (songs : List Song),
      ps.Perm (List.range pm.playlist.length) ∧
      (PlayNextReport draws obs resps 0 pm.playlist.length (GetCurrentSong d0 pm).1).1 =
        ps.map (index pm.playlist) ∧
      (PlayNextReport draws obs resps 0 pm.playlist.length (GetCurrentSong d0 pm).1).1 =
        songs.map Except.ok ∧
      songs.Perm pm.playlist ∧
      (PlayNextReport draws obs resps 0 pm.playlist.length (GetCurrentSong d0 pm).1).1.getLast? =
        some (GetCurrentSong d0 pm).2 ∧
      (∃ s0 : Song, (GetCurrentSong d0 pm).2 = .ok s0) ∧
      (PlayNextReport draws obs resps 0 pm.playlist.length (GetCurrentSong d0 pm).1).2.currentIndex =
        pm.currentIndex := by
  obtain ⟨hp, hres⟩ := GetCurrentSong_shuffle d0 hd0 pm hs hm h0 h1
  obtain ⟨fpl, fc, fm, -, -⟩ := GetCurrentSong_frame d0 pm
  have hlen : (GetCurrentSong d0 pm).1.shuffleList.length = pm.playlist.length := by
    simpa using hp.length_eq
  have hmlt : pm.currentIndex.toNat < pm.playlist.length := by omega
  have hmc : pm.currentIndex = (pm.currentIndex.toNat : Int) := by omega
  have hpos : 0 < pm.playlist.length := by omega
  have hrep := PlayNextReport_fresh draws obs resps pm.playlist.length 0 pm.currentIndex.toNat
    (GetCurrentSong d0 pm).1 (by rw [fm]; exact hm) (by rw [hlen, fpl]) (by rw [fc]; exact hmc)
    (by rw [fpl]; exact hmlt)
  rw [fpl] at hrep
  generalize (GetCurrentSong d0 pm).1.shuffleList = sl at hp hres hlen hrep
  have hidx := range_shift_perm pm.playlist.length (pm.currentIndex.toNat + 1)
  have hps : (((List.range pm.playlist.length).map
      (fun j => (pm.currentIndex.toNat + 1 + j) % pm.playlist.length)).map
        (fun x => sl.getD x 0)).Perm (List.range pm.playlist.length) := by
    have h2 := hidx.map (fun x => sl.getD x 0)
    have h3 := map_getD_range sl 0
    rw [hlen] at h3
    rw [h3] at h2
    exact h2.trans hp
  have hlist : (PlayNextReport draws obs resps 0 pm.playlist.length (GetCurrentSong d0 pm).1).1 =
      (((List.range pm.playlist.length).map
        (fun j => (pm.currentIndex.toNat + 1 + j) % pm.playlist.length)).map
          (fun x => sl.getD x 0)).map (index pm.playlist) := by
    rw [hrep.1, List.map_map, List.map_map]
    apply List.map_congr_left
    intro j _
    simp only [Function.comp]
    exact index_bind_ok sl _ (by rw [hlen]; exact Nat.mod_lt _ hpos) _
  generalize (((List.range pm.playlist.length).map
      (fun j => (pm.currentIndex.toNat + 1 + j) % pm.playlist.length)).map
        (fun x => sl.getD x 0)) = ps at hps hlist
  refine ⟨ps, ps.map (fun p => pm.playlist.getD p songA), hps, hlist, ?_, ?_, ?_, ?_, ?_⟩
  · rw [hlist, List.map_map]
    apply List.map_congr_left
    intro p hp'
    simp only [Function.comp]
    exact index_eq_ok_getD pm.playlist songA p (List.mem_range.mp (hps.mem_iff.mp hp'))
  · have h2 := hps.map (fun p => pm.playlist.getD p songA)
    rw [map_getD_range] at h2
    exact h2
  · rw [hrep.1, List.getLast?_map, List.getLast?_range, if_neg (by omega), hres]
    simp only [Option.map_some']
    congr 3
    have : pm.currentIndex.toNat + 1 + (pm.playlist.length - 1) =
        pm.currentIndex.toNat + pm.playlist.length := by omega
    rw [this, Nat.add_mod_right, Nat.mod_eq_of_lt hmlt]
  · rw [hres, index_bind_ok sl _ (by rw [hlen]; exact hmlt)]
    have hk : sl.getD pm.currentIndex.toNat 0 < pm.playlist.length := by
      have hmem : sl.getD pm.currentIndex.toNat 0 ∈ sl := by
        rw [List.getD_eq_getElem sl 0 (by rw [hlen]; exact hmlt)]
        exact List.getElem_mem _
      exact List.mem_range.mp (hp.mem_iff.mp hmem)
    exact ⟨_, index_eq_ok pm.playlist _ hk⟩
  · rw [hrep.2.1, Nat.add_mod_right, Nat.mod_eq_of_lt hmlt]
    exact hmc.symm

/-- C5 at the state after `staleShuffleOps` (playlist `[A, C]`, stale shuffle
order): the current song is `C`, the two calls of `PlayNext` show `A` and then
`C` again. -/
theorem C5_shuffle_traversal_witness :
    (GetCurrentSong drawZero (run NewPlayManager staleShuffleOps)).2 = .ok songC ∧
    (PlayNextReport (fun _ => drawZero) (fun _ => drawZero) (fun _ => none) 0 2
      (GetCurrentSong drawZero (run NewPlayManager staleShuffleOps)).1).1 =
        [.ok songA, .ok songC] ∧
    ∃ (ps : List Nat) (songs : List Song),
      ps.Perm (List.range (run NewPlayManager staleShuffleOps).playlist.length) ∧
      (PlayNextReport (fun _ => drawZero) (fun _ => drawZero) (fun _ => none) 0
        (run NewPlayManager staleShuffleOps).playlist.length
        (GetCurrentSong drawZero (run NewPlayManager staleShuffleOps)).1).1 =
          ps.map (index (run NewPlayManager staleShuffleOps).playlist) ∧
      (PlayNextReport (fun _ => drawZero) (fun _ => drawZero) (fun _ => none) 0
        (run NewPlayManager staleShuffleOps).playlist.length
        (GetCurrentSong drawZero (run NewPlayManager staleShuffleOps)).1).1 =
          songs.map Except.ok ∧
      songs.Perm (run NewPlayManager staleShuffleOps).playlist ∧
      (PlayNextReport (fun _ => drawZero) (fun _ => drawZero) (fun _ => none) 0
        (run NewPlayManager staleShuffleOps).playlist.length
        (GetCurrentSong drawZero (run NewPlayManager staleShuffleOps)).1).1.getLast? =
          some (GetCurrentSong drawZero (run NewPlayManager staleShuffleOps)).2 ∧
      (∃ s0 : Song, (GetCurrentSong drawZero (run NewPlayManager staleShuffleOps)).2 = .ok s0) ∧
      (PlayNextReport (fun _ => drawZero) (fun _ => drawZero) (fun _ => none) 0
        (run NewPlayManager staleShuffleOps).playlist.length
        (GetCurrentSong drawZero (run NewPlayManager staleShuffleOps)).1).2.currentIndex =
          (run NewPlayManager staleShuffleOps).currentIndex :=
  ⟨by decide, by decide,
    C5_shuffle_traversal (run NewPlayManager staleShuffleOps) drawZero (fun i => Nat.zero_le i)
      (fun _ => drawZero) (fun _ => drawZero) (fun _ => none)
      (reachable_shuffleOK _ staleShuffleOps_reachable) (by decide) (by decide) (by decide)⟩

/-- C6. In `repeat` mode, for any playlist and any cursor, `PlayNext` and
`PlayPrevious` leave the cursor, the playlist, the play mode and the shuffle
order as they were, so `GetCurrentSong` gives the same result, song or error,
before and after either call. -/
theorem C6_repeat_keeps_current (pm : PlayManager) (draw d1 d2 : Nat → Nat)
    (resp : Option String) (hm : pm.playMode = PlayModeRepeat) :
    ((PlayNext draw resp pm).1.currentIndex = pm.currentIndex ∧
      (PlayNext draw resp pm).1.playlist = pm.playlist ∧
      (PlayNext draw resp pm).1.playMode = pm.playMode ∧
      (PlayNext draw resp pm).1.shuffleList = pm.shuffleList ∧
      (GetCurrentSong d2 (PlayNext draw resp pm).1).2 = (GetCurrentSong d1 pm).2) ∧
    ((PlayPrevious draw resp pm).1.currentIndex = pm.currentIndex ∧
      (PlayPrevious draw resp pm).1.playlist = pm.playlist ∧
      (PlayPrevious draw resp pm).1.playMode = pm.playMode ∧
      (PlayPrevious draw resp pm).1.shuffleList = pm.shuffleList ∧
      (GetCurrentSong d2 (PlayPrevious draw resp pm).1).2 = (GetCurrentSong d1 pm).2) := by
  have hns : pm.playMode ≠ PlayModeShuffle := by rw [hm]; decide
  have hn := PlayNext_repeat draw resp pm hm
  have hp := PlayPrevious_repeat draw resp pm hm
  have hnl := PlayNext_playlist draw resp pm
  have hpl := PlayPrevious_playlist draw resp pm
  exact ⟨⟨hn.1, hnl.1, hnl.2, hn.2, GetCurrentSong_snd_congr d2 d1 _ pm hns hnl.1 hn.1 hnl.2⟩,
    ⟨hp.1, hpl.1, hpl.2, hp.2, GetCurrentSong_snd_congr d2 d1 _ pm hns hpl.1 hp.1 hpl.2⟩⟩

/-- C6 on the playlist `[A, B, C]` in `repeat` mode with the cursor on `B`:
after `PlayNext` and after `PlayPrevious` the current song is still `B`. -/
theorem C6_repeat_keeps_current_witness :
    (GetCurrentSong drawSelf
      { NewPlayManager with
        playlist := [songA, songB, songC], currentIndex := 1, playMode := "repeat" }).2 =
      .ok songB ∧
    (GetCurrentSong drawSelf (PlayNext drawSelf none
      { NewPlayManager with
        playlist := [songA, songB, songC], currentIndex := 1, playMode := "repeat" }).1).2 =
      .ok songB ∧
    (GetCurrentSong drawSelf (PlayPrevious drawSelf none
      { NewPlayManager with
        playlist := [songA, songB, songC], currentIndex := 1, playMode := "repeat" }).1).2 =
      (GetCurrentSong drawSelf
        { NewPlayManager with
          playlist := [songA, songB, songC], currentIndex := 1, playMode := "repeat" }).2 :=
  ⟨by decide, by decide,
    (C6_repeat_keeps_current
      { NewPlayManager with
        playlist := [songA, songB, songC], currentIndex := 1, playMode := "repeat" }
      drawSelf drawSelf drawSelf none rfl).2.2.2.2.2⟩

/-- C7. In `normal` or `shuffle` mode, on a playlist of `n > 0` songs with the
cursor `c` in `[0, n)`, `PlayPrevious` moves the cursor to `c - 1`, or to
`n - 1` when `c = 0`, and `PlayNext` moves it to `c + 1`, or to `0` when
`c = n - 1`; `PlayNext` followed by `PlayPrevious`, and `PlayPrevious` followed
by `PlayNext`, bring the cursor back to `c`. -/
theorem C7_previous_mirrors_next (pm : PlayManager) (d1 d2 : Nat → Nat)
    (r1 r2 : Option String)
    (hm : pm.playMode = PlayModeNormal ∨ pm.playMode = PlayModeShuffle)
    (h0 : 0 ≤ pm.currentIndex) (h1 : pm.currentIndex < (pm.playlist.length : Int)) :
    (PlayPrevious d1 r1 pm).1.currentIndex =
      (if pm.currentIndex = 0 then (pm.playlist.length : Int) - 1 else pm.currentIndex - 1) ∧
    (PlayNext d1 r1 pm).1.currentIndex =
      (if pm.currentIndex = (pm.playlist.length : Int) - 1 then 0 else pm.currentIndex + 1) ∧
    (PlayPrevious d2 r2 (PlayNext d1 r1 pm).1).1.currentIndex = pm.currentIndex ∧
    (PlayNext d2 r2 (PlayPrevious d1 r1 pm).1).1.currentIndex = pm.currentIndex := by
  have hmode : pm.playMode = PlayModeNormal ∨ pm.playMode = "" ∨
      pm.playMode = PlayModeShuffle := by
    rcases hm with h | h
    · exact Or.inl h
    · exact Or.inr (Or.inr h)
  have hn : ¬ pm.playlist.length = 0 := by omega
  have hnl := PlayNext_playlist d1 r1 pm
  have hpl := PlayPrevious_playlist d1 r1 pm
  have hnc : (PlayNext d1 r1 pm).1.currentIndex =
      (if pm.currentIndex = (pm.playlist.length : Int) - 1 then 0 else pm.currentIndex + 1) := by
    rw [PlayNext_cursor, if_neg hn, if_pos hmode]
    split <;> split <;> omega
  have hpc : (PlayPrevious d1 r1 pm).1.currentIndex =
      (if pm.currentIndex = 0 then (pm.playlist.length : Int) - 1 else pm.currentIndex - 1) := by
    rw [PlayPrevious_cursor, if_neg hn, if_pos hmode]
    split <;> split <;> omega
  refine ⟨hpc, hnc, ?_, ?_⟩
  · rw [PlayPrevious_cursor, hnl.1, hnl.2, if_neg hn, if_pos hmode, hnc]
    split <;> split <;> omega
  · rw [PlayNext_cursor, hpl.1, hpl.2, if_neg hn, if_pos hmode, hpc]
    split <;> split <;> omega

/-- C7 on the playlist `[A, B, C]` in `normal` mode with the cursor on `A`:
`PlayPrevious` wraps to position `2`, and `PlayNext` after it returns to `0`. -/
theorem C7_previous_mirrors_next_witness :
    (PlayPrevious drawSelf none (SetSongs [songA, songB, songC] NewPlayManager)).1.currentIndex =
      2 ∧
    (PlayNext drawSelf none (PlayPrevious drawSelf none
      (SetSongs [songA, songB, songC] NewPlayManager)).1).1.currentIndex =
      (SetSongs [songA, songB, songC] NewPlayManager).currentIndex :=
  ⟨by decide,
    (C7_previous_mirrors_next (SetSongs [songA, songB, songC] NewPlayManager) drawSelf drawSelf
      none none (Or.inl rfl) (by decide) (by decide)).2.2.2⟩

/-- C8. `GetCurrentSong` fails with `ErrInvalidIndex` exactly when the cursor
is outside `[0, len(playlist))`; this is the case in every state with an empty
playlist.  With the cursor inside the range it succeeds: outside `shuffle` mode
(in particular in `normal` and `repeat` mode) it returns `playlist[cursor]` and
leaves the manager as it was; in `shuffle` mode, when the shuffle order is a
rearrangement of `0, ..., len(shuffleList) - 1` as in every reachable state and
the draws respect the range of `rand.Intn`, it returns
`playlist[shuffleList[cursor]]` for the shuffle order it leaves behind
(regenerated first when its length was stale). -/
theorem C8_getCurrentSong (pm : PlayManager) (draw : Nat → Nat) :
    ((GetCurrentSong draw pm).2 = .error .ErrInvalidIndex ↔
      (pm.currentIndex < 0 ∨ pm.currentIndex ≥ (pm.playlist.length : Int))) ∧
    (pm.playlist = [] → GetCurrentSong draw pm = (pm, .error .ErrInvalidIndex)) ∧
    (0 ≤ pm.currentIndex → pm.currentIndex < (pm.playlist.length : Int) →
      pm.playMode ≠ PlayModeShuffle →
      ∃ s : Song, pm.playlist[pm.currentIndex.toNat]? = some s ∧
        GetCurrentSong draw pm = (pm, .ok s)) ∧
    (0 ≤ pm.currentIndex → pm.currentIndex < (pm.playlist.length : Int) →
      pm.playMode = PlayModeShuffle → ShuffleOK pm → DrawOK draw →
      ∃ (k : Nat) (s : Song),
        (GetCurrentSong draw pm).1.shuffleList[pm.currentIndex.toNat]? = some k ∧
        pm.playlist[k]? = some s ∧ (GetCurrentSong draw pm).2 = .ok s) := by
  refine ⟨⟨?_, ?_⟩, ?_, ?_, ?_⟩
  · intro h
    by_contra hng
    unfold GetCurrentSong at h
    rw [if_neg hng] at h
    split at h
    · exact index_bind_ne_invalid _ _ _ id h
    · exact index_ne_invalid _ _ h
  · intro h
    rw [GetCurrentSong_out_of_range draw pm h]
  · intro he
    exact GetCurrentSong_out_of_range draw pm (by rw [he]; simp; omega)
  · intro h0 h1 hm
    obtain ⟨hlt, hg⟩ := GetCurrentSong_canonical draw pm hm h0 h1
    exact ⟨pm.playlist[pm.currentIndex.toNat], List.getElem?_eq_getElem hlt, hg⟩
  · intro h0 h1 hm hs hd
    obtain ⟨hp, hres⟩ := GetCurrentSong_shuffle draw hd pm hs hm h0 h1
    have hlen : (GetCurrentSong draw pm).1.shuffleList.length = pm.playlist.length := by
      simpa using hp.length_eq
    have hclt : pm.currentIndex.toNat < (GetCurrentSong draw pm).1.shuffleList.length := by
      omega
    have hk : (GetCurrentSong draw pm).1.shuffleList[pm.currentIndex.toNat] <
        pm.playlist.length :=
      List.mem_range.mp (hp.mem_iff.mp (List.getElem_mem _))
    refine ⟨_, pm.playlist[(GetCurrentSong draw pm).1.shuffleList[pm.currentIndex.toNat]],
      List.getElem?_eq_getElem hclt, List.getElem?_eq_getElem hk, ?_⟩
    rw [hres, index_eq_ok _ _ hclt]
    exact index_eq_ok _ _ hk

/-- C8 at the state after `staleShuffleOps` (playlist `[A, C]`, shuffle mode,
cursor `0`, stale shuffle order): the order is regenerated to `[1, 0]` and the
song returned is `playlist[1] = C`. -/
theorem C8_getCurrentSong_witness :
    (GetCurrentSong drawZero (run NewPlayManager staleShuffleOps)).1.shuffleList = [1, 0] ∧
    (GetCurrentSong drawZero (run NewPlayManager staleShuffleOps)).2 = .ok songC ∧
    ∃ (k : Nat) (s : Song),
      (GetCurrentSong drawZero (run NewPlayManager staleShuffleOps)).1.shuffleList[
        (run NewPlayManager staleShuffleOps).currentIndex.toNat]? = some k ∧
      (run NewPlayManager staleShuffleOps).playlist[k]? = some s ∧
      (GetCurrentSong drawZero (run NewPlayManager staleShuffleOps)).2 = .ok s :=
  ⟨by decide, by decide,
    (C8_getCurrentSong (run NewPlayManager staleShuffleOps) drawZero).2.2.2 (by decide)
      (by decide) (by decide) (reachable_shuffleOK _ staleShuffleOps_reachable)
      (fun i => Nat.zero_le i)⟩

/-- C9. On an empty playlist, in every play mode and for every cursor value,
`PlayNext` and `PlayPrevious` return `ErrPlaylistEmpty`, which is not
`ErrInvalidIndex`, and leave the whole manager as it was: the cursor, the play
mode, the shuffle order, and the log of play requests made to the player. -/
theorem C9_empty_playlist (pm : PlayManager) (draw : Nat → Nat) (resp : Option String)
    (he : pm.playlist = []) :
    PlayNext draw resp pm = (pm, .error .ErrPlaylistEmpty) ∧
    PlayPrevious draw resp pm = (pm, .error .ErrPlaylistEmpty) ∧
    (PlayNext draw resp pm).2 ≠ .error .ErrInvalidIndex ∧
    (PlayPrevious draw resp pm).2 ≠ .error .ErrInvalidIndex ∧
    (PlayNext draw resp pm).1.Player = pm.Player ∧
    (PlayPrevious draw resp pm).1.Player = pm.Player := by
  have hn := PlayNext_empty draw resp pm he
  have hp := PlayPrevious_empty draw resp pm he
  refine ⟨hn, hp, ?_, ?_, ?_, ?_⟩
  · rw [hn]; simp
  · rw [hp]; simp
  · rw [hn]
  · rw [hp]

/-- C9 at the manager returned by `NewPlayManager`, and at an empty manager in
shuffle mode with the cursor at `5`. -/
theorem C9_empty_playlist_witness :
    PlayNext drawSelf none NewPlayManager = (NewPlayManager, .error .ErrPlaylistEmpty) ∧
    PlayPrevious drawSelf none { NewPlayManager with currentIndex := 5, playMode := "shuffle" } =
      ({ NewPlayManager with currentIndex := 5, playMode := "shuffle" },
        .error .ErrPlaylistEmpty) :=
  ⟨(C9_empty_playlist NewPlayManager drawSelf none rfl).1,
    (C9_empty_playlist { NewPlayManager with currentIndex := 5, playMode := "shuffle" }
      drawSelf none rfl).2.1⟩

/-- C10. In every reachable state `SetPlayMode(m)` returns an error exactly when
`m` is none of `"normal"`, `"repeat"`, `"shuffle"` and the empty string; the
error is the invalid-play-mode error, and then the manager is left as it was:
play mode, cursor and shuffle order are unchanged. -/
theorem C10_setPlayMode_error (pm : PlayManager) (draw : Nat → Nat) (mode : String)
    (hr : Reachable pm) :
    ((∃ e : Err, (SetPlayMode draw mode pm).2 = .error e) ↔
      ¬ (mode = PlayModeNormal ∨ mode = PlayModeRepeat ∨ mode = PlayModeShuffle ∨ mode = "")) ∧
    (∀ e : Err, (SetPlayMode draw mode pm).2 = .error e →
      e = .invalidPlayMode ∧ (SetPlayMode draw mode pm).1 = pm ∧
      (SetPlayMode draw mode pm).1.playMode = pm.playMode ∧
      (SetPlayMode draw mode pm).1.currentIndex = pm.currentIndex ∧
      (SetPlayMode draw mode pm).1.shuffleList = pm.shuffleList) := by
  have hmo := reachable_modeOK pm hr
  unfold ModeOK at hmo
  rcases SetPlayMode_result draw mode pm with ⟨_, hnv, hs⟩ | ⟨hv, hs⟩
  · rw [hs]
    refine ⟨⟨fun _ => hnv, fun _ => ⟨_, rfl⟩⟩, ?_⟩
    intro e he
    simp only [Except.error.injEq] at he
    exact ⟨he.symm, rfl, rfl, rfl, rfl⟩
  · have hvalid : mode = PlayModeNormal ∨ mode = PlayModeRepeat ∨ mode = PlayModeShuffle ∨
        mode = "" := by
      rcases hv with h | h
      · rw [h]
        rcases hmo with h | h | h | h
        · exact Or.inl h
        · exact Or.inr (Or.inr (Or.inr h))
        · exact Or.inr (Or.inl h)
        · exact Or.inr (Or.inr (Or.inl h))
      · exact h
    rw [hs]
    refine ⟨⟨fun ⟨e, he⟩ => by simp at he, fun hn => absurd hvalid hn⟩, ?_⟩
    intro e he
    simp at he

/-- C10 at the state after `growOps` (shuffle mode, cursor `1`):
`SetPlayMode("bogus")` returns the invalid-play-mode error and changes
nothing. -/
theorem C10_setPlayMode_error_witness :
    SetPlayMode drawSelf "bogus" (run NewPlayManager growOps) =
      (run NewPlayManager growOps, .error .invalidPlayMode) ∧
    (run NewPlayManager growOps).playMode = "shuffle" ∧
    (run NewPlayManager growOps).currentIndex = 1 ∧
    ((∃ e : Err, (SetPlayMode drawSelf "bogus" (run NewPlayManager growOps)).2 = .error e) ↔
      ¬ ("bogus" = PlayModeNormal ∨ "bogus" = PlayModeRepeat ∨ "bogus" = PlayModeShuffle ∨
        "bogus" = "")) :=
  ⟨by decide, by decide, by decide,
    (C10_setPlayMode_error (run NewPlayManager growOps) drawSelf "bogus"
      ⟨growOps, by
        intro op hop
        simp only [growOps, List.mem_cons, List.mem_singleton, List.not_mem_nil,
          or_false] at hop
        rcases hop with rfl | rfl | rfl | rfl
        · exact trivial
        · exact fun i => le_refl i
        · exact fun i => Nat.zero_le i
        · exact fun i => Nat.zero_le i, rfl⟩).1⟩

/-- C11. `RemoveSongByIndex(i)` on a playlist of length `n` with cursor `c`:
when `i < 0` or `i ≥ n` (so also when `i = n`) the manager is left exactly as
it was, and the method has no error to report; when `0 ≤ i < n` the new
playlist is `playlist[:i]` followed by `playlist[i+1:]`, it has length `n - 1`,
its entries before position `i` are the old ones and its entry at a position
`j ≥ i` is the old entry at `j + 1`; the cursor becomes `c - 1` when `c ≥ i`
and stays `c` when `c < i`; play mode and shuffle order are untouched. -/
theorem C11_removeSongByIndex (pm : PlayManager) (idx : Int) :
    ((idx < 0 ∨ idx ≥ (pm.playlist.length : Int)) → RemoveSongByIndex idx pm = pm) ∧
    (0 ≤ idx → idx < (pm.playlist.length : Int) →
      (RemoveSongByIndex idx pm).playlist =
        pm.playlist.take idx.toNat ++ pm.playlist.drop (idx.toNat + 1) ∧
      (RemoveSongByIndex idx pm).playlist.length = pm.playlist.length - 1 ∧
      (∀ j : Nat, j < idx.toNat → (RemoveSongByIndex idx pm).playlist[j]? = pm.playlist[j]?) ∧
      (∀ j : Nat, idx.toNat ≤ j →
        (RemoveSongByIndex idx pm).playlist[j]? = pm.playlist[j + 1]?) ∧
      (pm.currentIndex ≥ idx →
        (RemoveSongByIndex idx pm).currentIndex = pm.currentIndex - 1) ∧
      (pm.currentIndex < idx → (RemoveSongByIndex idx pm).currentIndex = pm.currentIndex) ∧
      (RemoveSongByIndex idx pm).playMode = pm.playMode ∧
      (RemoveSongByIndex idx pm).shuffleList = pm.shuffleList) := by
  constructor
  · intro h
    simp only [RemoveSongByIndex, if_pos h]
  · intro h0 h1
    have hi : (idx.toNat : Int) = idx := Int.toNat_of_nonneg h0
    have hlt : idx.toNat < pm.playlist.length := by omega
    have hr := RemoveSongByIndex_in_range idx.toNat pm hlt
    rw [hi] at hr
    rw [hr]
    refine ⟨List.eraseIdx_eq_take_drop_succ _ _, List.length_eraseIdx_of_lt hlt, ?_, ?_, ?_, ?_,
      rfl, rfl⟩
    · intro j hj
      exact List.getElem?_eraseIdx_of_lt _ _ _ hj
    · intro j hj
      exact List.getElem?_eraseIdx_of_ge _ _ _ hj
    · intro hc
      simp only [if_pos hc]
    · intro hc
      have : ¬ pm.currentIndex ≥ idx := by omega
      simp only [if_neg this]

/-- C11 on `[A, B, C, B2]` with the cursor on `C`: index `4 = len` changes
nothing, index `1` leaves `[A, C, B2]` with the cursor at `1`, index `3` leaves
`[A, B, C]` with the cursor still at `2`. -/
theorem C11_removeSongByIndex_witness :
    RemoveSongByIndex 4 fourSongs = fourSongs ∧
    (RemoveSongByIndex 1 fourSongs).playlist = [songA, songC, songB2] ∧
    (RemoveSongByIndex 1 fourSongs).currentIndex = 1 ∧
    (RemoveSongByIndex 3 fourSongs).playlist = [songA, songB, songC] ∧
    (RemoveSongByIndex 3 fourSongs).currentIndex = fourSongs.currentIndex :=
  ⟨(C11_removeSongByIndex fourSongs 4).1 (by decide), by decide, by decide, by decide,
    ((C11_removeSongByIndex fourSongs 3).2 (by decide) (by decide)).2.2.2.2.2.1 (by decide)⟩

/-- C12. `RemoveSong(s)`: when `i` is the smallest position whose song has the
path of `s` (such a position exists as soon as some entry has that path),
`RemoveSong(s)` leaves the same manager as `RemoveSongByIndex(i)`: the playlist
loses exactly the entry at position `i`, later entries with the same path
stay, and the cursor is decremented by one exactly when it is at or after `i`.
When no entry has that path the manager is left as it was. -/
theorem C12_removeSong_refines (pm : PlayManager) (song : Song) :
    (∀ i : Nat, IsFirstMatch song.Path pm.playlist i →
      RemoveSong song pm = RemoveSongByIndex (i : Int) pm ∧
      (RemoveSong song pm).playlist = pm.playlist.eraseIdx i ∧
      (RemoveSong song pm).playlist.length = pm.playlist.length - 1 ∧
      (RemoveSong song pm).currentIndex =
        (if pm.currentIndex ≥ (i : Int) then pm.currentIndex - 1 else pm.currentIndex)) ∧
    ((∃ t ∈ pm.playlist, t.Path = song.Path) →
      ∃ i : Nat, i < pm.playlist.length ∧ IsFirstMatch song.Path pm.playlist i) ∧
    ((∀ t ∈ pm.playlist, t.Path ≠ song.Path) → RemoveSong song pm = pm) := by
  refine ⟨?_, ?_, ?_⟩
  · intro i hfirst
    have hidx := indexOfPath_of_first song.Path pm.playlist i hfirst
    have hlt := indexOfPath_lt song.Path pm.playlist i hidx
    have hr : RemoveSong song pm =
        { pm with
          playlist := pm.playlist.eraseIdx i
          currentIndex :=
            if pm.currentIndex ≥ (i : Int) then pm.currentIndex - 1 else pm.currentIndex } := by
      simp only [RemoveSong, hidx]
    rw [RemoveSongByIndex_in_range i pm hlt, hr]
    exact ⟨rfl, rfl, List.length_eraseIdx_of_lt hlt, rfl⟩
  · intro hex
    obtain ⟨i, hi⟩ := indexOfPath_some_of_mem song.Path pm.playlist hex
    exact ⟨i, indexOfPath_lt _ _ _ hi, indexOfPath_is_first _ _ _ hi⟩
  · intro hno
    simp only [RemoveSong, indexOfPath_none song.Path pm.playlist hno]

/-- C12 on `[A, B, C, B2]` with the cursor on `C`, removing a song with the
path of `B`: position `1` is the first match, the result is `[A, C, B2]` with
the cursor at `1`, and it is the result of `RemoveSongByIndex(1)`. -/
theorem C12_removeSong_refines_witness :
    IsFirstMatch songB2.Path fourSongs.playlist 1 ∧
    (RemoveSong songB2 fourSongs).playlist = [songA, songC, songB2] ∧
    (RemoveSong songB2 fourSongs).currentIndex = 1 ∧
    RemoveSong songB2 fourSongs = RemoveSongByIndex 1 fourSongs :=
  ⟨indexOfPath_is_first _ _ _ (by decide), by decide, by decide,
    ((C12_removeSong_refines fourSongs songB2).1 1
      (indexOfPath_is_first _ _ _ (by decide))).1⟩

/-- C14. In every state reached from `NewPlayManager` by calls of the public
methods the cursor is at least `-1`.  When `PlayNext` or `PlayPrevious` is
called in such a state with a non-empty playlist, in `normal` or `shuffle`
mode, and with the cursor below `len(playlist)`, the cursor afterwards lies in
`[0, len(playlist))`. -/
theorem C14_cursor_floor (pm : PlayManager) (hr : Reachable pm) (draw : Nat → Nat)
    (resp : Option String) :
    -1 ≤ pm.currentIndex ∧
    (pm.playlist ≠ [] → (pm.playMode = PlayModeNormal ∨ pm.playMode = PlayModeShuffle) →
      pm.currentIndex < (pm.playlist.length : Int) →
      (0 ≤ (PlayNext draw resp pm).1.currentIndex ∧
        (PlayNext draw resp pm).1.currentIndex < ((PlayNext draw resp pm).1.playlist.length : Int)) ∧
      (0 ≤ (PlayPrevious draw resp pm).1.currentIndex ∧
        (PlayPrevious draw resp pm).1.currentIndex <
          ((PlayPrevious draw resp pm).1.playlist.length : Int))) := by
  have hge := reachable_cursor_ge pm hr
  refine ⟨hge, ?_⟩
  intro hne hm hlt
  have hmode : pm.playMode = PlayModeNormal ∨ pm.playMode = "" ∨
      pm.playMode = PlayModeShuffle := by
    rcases hm with h | h
    · exact Or.inl h
    · exact Or.inr (Or.inr h)
  have hn : ¬ pm.playlist.length = 0 := fun h => hne (List.length_eq_zero.mp h)
  rw [(PlayNext_playlist draw resp pm).1, (PlayPrevious_playlist draw resp pm).1,
    PlayNext_cursor, PlayPrevious_cursor, if_neg hn, if_neg hn, if_pos hmode, if_pos hmode]
  constructor
  · split <;> omega
  · split <;> omega

/-- C14 at the state after `removeAtCursorOps` (playlist `[B]`, cursor `-1`,
`normal` mode): `PlayNext` and `PlayPrevious` both put the cursor on `0`. -/
theorem C14_cursor_floor_witness :
    (run NewPlayManager removeAtCursorOps).currentIndex = -1 ∧
    (PlayNext drawSelf none (run NewPlayManager removeAtCursorOps)).1.currentIndex = 0 ∧
    (PlayPrevious drawSelf none (run NewPlayManager removeAtCursorOps)).1.currentIndex = 0 ∧
    -1 ≤ (run NewPlayManager removeAtCursorOps).currentIndex :=
  ⟨by decide, by decide, by decide,
    (C14_cursor_floor (run NewPlayManager removeAtCursorOps)
      ⟨removeAtCursorOps, by
        intro op hop
        simp only [removeAtCursorOps, List.mem_cons, List.mem_singleton, List.not_mem_nil,
          or_false] at hop
        rcases hop with rfl | rfl <;> exact trivial, rfl⟩ drawSelf none).1⟩

end Playmanager

namespace player

/-- C13 (as amended). With an active stream of length `L` at position `p` and
an offset worth `d` samples, `ToPositionByOffset` hands to `Seek` the position
`p + d` when `0 ≤ p + d < L`, `0` when `p + d < 0`, and `L - 1` when
`p + d ≥ L`; it returns the error of `Seek`, if any.  When `L ≥ 1` that
position lies in `[0, L - 1]`. -/
theorem C13_toPositionByOffset_amended (p : Player) (s : Streamer) (samples : Int)
    (seekResp : Option String) (hs : p.streamer = some s) :
    ∃ q : Int, (ToPositionByOffset samples seekResp p).1 = some q ∧
      (0 ≤ s.position + samples → s.position + samples < (s.len : Int) →
        q = s.position + samples) ∧
      (s.position + samples < 0 → q = 0) ∧
      (s.position + samples ≥ (s.len : Int) → q = (s.len : Int) - 1) ∧
      (1 ≤ s.len → 0 ≤ q ∧ q ≤ (s.len : Int) - 1) ∧
      ((ToPositionByOffset samples seekResp p).2 = .ok () ↔ seekResp = none) := by
  refine ⟨if s.position + samples < 0 then 0
      else if s.position + samples ≥ (s.len : Int) then (s.len : Int) - 1
      else s.position + samples, ?_, ?_, ?_, ?_, ?_, ?_⟩
  · unfold ToPositionByOffset
    rw [hs]
    cases seekResp <;> rfl
  · intro h0 h1
    rw [if_neg (by omega), if_neg (by omega)]
  · intro h0
    rw [if_pos h0]
  · intro h1
    have h0 : ¬ s.position + samples < 0 := by omega
    rw [if_neg h0, if_pos h1]
  · intro hl
    split
    · omega
    · split <;> omega
  · unfold ToPositionByOffset
    rw [hs]
    cases seekResp <;> simp

/-- C13 (as amended) on a stream of `100` samples at position `90`: an offset
of `20` samples seeks to `99`, an offset of `-95` samples seeks to `0`, an
offset of `5` samples seeks to `95`. -/
theorem C13_toPositionByOffset_amended_witness :
    (ToPositionByOffset 20 none (playing 90 100)).1 = some 99 ∧
    (ToPositionByOffset (-95) none (playing 90 100)).1 = some 0 ∧
    (ToPositionByOffset 5 none (playing 90 100)).1 = some 95 ∧
    ∃ q : Int, (ToPositionByOffset 20 none (playing 90 100)).1 = some q ∧
      0 ≤ q ∧ q ≤ ((100 : Nat) : Int) - 1 := by
  obtain ⟨q, hq, _, _, _, hr, _⟩ :=
    C13_toPositionByOffset_amended (playing 90 100) { position := 90, len := 100 } 20 none rfl
  exact ⟨by decide, by decide, by decide, q, hq, hr (by decide)⟩

/-- C13 fails as stated on an active stream of length `0`: with the position
`0` and an offset of `0` samples the position handed to `Seek` is `-1`, and
with an offset of `-1` sample it is `0`; neither lies in `[0, L - 1]`, which is
empty. -/
theorem C13_counterexample :
    (ToPositionByOffset 0 none (playing 0 0)).1 = some (-1) ∧
    ¬ (0 ≤ (-1 : Int) ∧ (-1 : Int) ≤ ((0 : Nat) : Int) - 1) ∧
    (ToPositionByOffset (-1) none (playing 0 0)).1 = some 0 ∧
    ¬ (0 ≤ (0 : Int) ∧ (0 : Int) ≤ ((0 : Nat) : Int) - 1) ∧
    ¬ (∀ (p : Player) (s : Streamer) (samples : Int) (seekResp : Option String),
        p.streamer = some s →
        ∃ q : Int, (ToPositionByOffset samples seekResp p).1 = some q ∧
          0 ≤ q ∧ q ≤ (s.len : Int) - 1) := by
  refine ⟨by decide, by decide, by decide, by decide, ?_⟩
  intro hall
  obtain ⟨q, _, h0, h1⟩ := hall (playing 0 0) { position := 0, len := 0 } 0 none rfl
  simp only [Nat.cast_zero] at h1
  omega

end player
